import Mathlib

set_option autoImplicit false

/-
Verification development for the teachAI backend.

Shallow embedding of the DOM Grounding Resolver
(src/backend/app/automation/dom_resolver.py), the run store
(src/backend/app/core/storage.py), the run routes
(src/backend/app/api/routes_runs.py) and the workflow runner
(src/backend/app/executor/selenium_runner.py).

Conventions:
- Selenium WebElement handles are modelled by `ElementRef` (an element is
  identified by its Selenium-internal id; a handle raising
  StaleElementReferenceException on id access is `stale`).
- Python floats carrying confidence scores are modelled by `Score := Nat` in
  units of ten-thousandths (0.95 becomes 9500); every score constant and every
  score product in the source is an exact multiple of 0.0001, and the claims
  under study depend only on score ordering and identity, on which this
  representation agrees with the source (binary floating point introduces only
  sub-0.0001 rounding, which never crosses any of the fixed weight levels).
- The live browser page is modelled by the `Page` oracle, one field per
  WebDriver query primitive the resolver calls.  `Page.generateSelector`
  abstracts `DOMResolver._generate_selector` (a driver-side selector synthesis
  routine whose output is a pure function of the page state; the claims under
  study quantify over its output and never depend on its internals).
- Python `if s:` truthiness on optional strings is modelled by `truthy`.
-/

namespace TeachAI

/-- Apostrophe character, written via its code point so that quote characters
never appear raw inside string literals of this file. -/
def squoteChar : Char := Char.ofNat 39

/-- Double-quote character. -/
def dquoteChar : Char := Char.ofNat 34

/-- One-character string holding an apostrophe. -/
def squoteStr : String := String.mk [squoteChar]

/-- One-character string holding a double quote. -/
def dquoteStr : String := String.mk [dquoteChar]

/-- Wrap a string in apostrophes, as the f-strings of dom_resolver.py do. -/
def sq (s : String) : String := squoteStr ++ s ++ squoteStr

/-- Python `str.lower`, for the ASCII strings of this development (Lean's
`String.toLower` is used nowhere because its `mapAux` does not reduce in the
kernel). -/
def lowerStr (s : String) : String := String.mk (s.data.map Char.toLower)

/-- Python `needle in hay` substring containment on strings. -/
def containsSub (hay needle : String) : Bool :=
  hay.data.tails.any (fun t => needle.data.isPrefixOf t)

/-- Python truthiness of an optional string (`None` and `""` are falsy). -/
def truthy : Option String → Bool
  | Option.none => false
  | some s => !s.isEmpty

/-- A Selenium element handle: live elements are identified by the
Selenium-internal `_id`; `stale` marks a handle whose id access raises
StaleElementReferenceException. -/
inductive ElementRef where
  | live (id : Nat)
  | stale
deriving DecidableEq

/-- Confidence scores, in exact units of one ten-thousandth. -/
abbrev Score := Nat

/-- Embeds dataclass `ScoredElement` of dom_resolver.py. -/
structure ScoredElement where
  element : ElementRef
  score : Score
  selector : String
  selectorType : String
  matchReasons : List String
deriving DecidableEq

/-- Embeds pydantic model `SemanticTarget` of app/models/schemas.py. -/
structure SemanticTarget where
  text_hint : Option String
  role_hint : Option String
  label_hint : Option String
  placeholder_hint : Option String
  relative_hint : Option String
  page_context : Option String
  visual_description : Option String
deriving DecidableEq

/-- The page oracle: one field per WebDriver primitive used by the resolver.
`findElementCss` is `driver.find_element(By.CSS_SELECTOR, s)` returning `none`
when the call raises NoSuchElementException; `findNestedInputTag` is
`label.find_element(By.TAG_NAME, "input")`; `generateSelector` abstracts
`DOMResolver._generate_selector`. -/
structure Page where
  findElementCss : String → Option ElementRef
  findElementsXPath : String → List ElementRef
  findElementsCss : String → List ElementRef
  findElementById : String → Option ElementRef
  getAttribute : ElementRef → String → Option String
  findNestedInputTag : ElementRef → Option ElementRef
  generateSelector : ElementRef → Option String

/-- WEIGHTS["exact_text"] = 1.0. -/
def wExactText : Score := 10000
/-- WEIGHTS["aria_label"] = 0.95. -/
def wAriaLabel : Score := 9500
/-- WEIGHTS["label_for"] = 0.9. -/
def wLabelFor : Score := 9000
/-- WEIGHTS["placeholder"] = 0.85. -/
def wPlaceholder : Score := 8500
/-- WEIGHTS["role_match"] = 0.3. -/
def wRoleMatch : Score := 3000
/-- WEIGHTS["partial_text"] = 0.7. -/
def wPartialText : Score := 7000

/-- XPath query built by `_find_by_text` for an exact match. -/
def xqExactText (text : String) : String :=
  "//*[normalize-space(text())=" ++ sq text ++ " or @value=" ++ sq text ++ "]"

/-- XPath query built by `_find_by_text` for a partial match. -/
def xqPartialText (text : String) : String :=
  "//*[contains(normalize-space(text()), " ++ sq text ++ ") or contains(@value, " ++ sq text ++ ")]"

/-- XPath query built by `_find_by_aria_label` for an exact match. -/
def xqAriaExact (label : String) : String :=
  "//*[@aria-label=" ++ sq label ++ "]"

/-- XPath query built by `_find_by_aria_label` for a partial match. -/
def xqAriaPartial (label : String) : String :=
  "//*[contains(@aria-label, " ++ sq label ++ ")]"

/-- XPath query built by `_find_by_label_for` to locate label elements. -/
def xqLabel (labelText : String) : String :=
  "//label[normalize-space(text())=" ++ sq labelText ++
    " or contains(normalize-space(text()), " ++ sq labelText ++ ")]"

/-- XPath query built by `_find_by_placeholder` for an exact match. -/
def xqPlaceholderExact (placeholder : String) : String :=
  "//*[@placeholder=" ++ sq placeholder ++ "]"

/-- XPath query built by `_find_by_placeholder` for a partial match. -/
def xqPlaceholderPartial (placeholder : String) : String :=
  "//*[contains(@placeholder, " ++ sq placeholder ++ ")]"

/-- Selector synthesis followed by the `if selector:` truthiness test that all
strategies of dom_resolver.py apply before appending a candidate. -/
def genSel (p : Page) (e : ElementRef) : Option String :=
  match p.generateSelector e with
  | some s => if s.isEmpty then Option.none else some s
  | Option.none => Option.none

/-- Embeds `DOMResolver._find_by_text`. -/
def find_by_text (p : Page) (text : String) (exact : Bool) : List ScoredElement :=
  let xpath := if exact then xqExactText text else xqPartialText text
  let weight := if exact then wExactText else wPartialText
  let reason := if exact then "exact text " ++ sq text else "partial text " ++ sq text
  (p.findElementsXPath xpath).filterMap (fun e =>
    match genSel p e with
    | some sel => some { element := e, score := weight, selector := sel,
                         selectorType := "css", matchReasons := [reason] }
    | Option.none => Option.none)

/-- Embeds `DOMResolver._find_by_aria_label` (exact matches, then partials). -/
def find_by_aria_label (p : Page) (label : String) : List ScoredElement :=
  ((p.findElementsXPath (xqAriaExact label)).filterMap (fun e =>
    match genSel p e with
    | some sel => some { element := e, score := wAriaLabel, selector := sel,
                         selectorType := "css", matchReasons := ["aria-label " ++ sq label] }
    | Option.none => Option.none))
  ++ ((p.findElementsXPath (xqAriaPartial label)).filterMap (fun e =>
    match genSel p e with
    | some sel => some { element := e, score := wAriaLabel * 8 / 10, selector := sel,
                         selectorType := "css",
                         matchReasons := ["partial aria-label " ++ sq label] }
    | Option.none => Option.none))

/-- Candidates contributed by one label element in `_find_by_label_for`.
When the label has a truthy `for` attribute whose id lookup fails, the source
executes `continue`, skipping the nested-input check for that label. -/
def labelForCandidates (p : Page) (labelText : String) (lab : ElementRef) : List ScoredElement :=
  let nested : List ScoredElement :=
    match p.findNestedInputTag lab with
    | some inp =>
      match genSel p inp with
      | some sel => [{ element := inp, score := wLabelFor * 9 / 10, selector := sel,
                       selectorType := "css",
                       matchReasons := ["input inside label " ++ sq labelText] }]
      | Option.none => []
    | Option.none => []
  match p.getAttribute lab "for" with
  | some forAttr =>
    if forAttr.isEmpty then nested
    else
      match p.findElementById forAttr with
      | some e =>
        { element := e, score := wLabelFor, selector := "#" ++ forAttr,
          selectorType := "css", matchReasons := ["label for " ++ sq labelText] } :: nested
      | Option.none => []
  | Option.none => nested

/-- Embeds `DOMResolver._find_by_label_for`. -/
def find_by_label_for (p : Page) (labelText : String) : List ScoredElement :=
  ((p.findElementsXPath (xqLabel labelText)).map (labelForCandidates p labelText)).flatten

/-- Embeds `DOMResolver._find_by_placeholder` (exact matches, then partials). -/
def find_by_placeholder (p : Page) (placeholder : String) : List ScoredElement :=
  ((p.findElementsXPath (xqPlaceholderExact placeholder)).filterMap (fun e =>
    match genSel p e with
    | some sel => some { element := e, score := wPlaceholder, selector := sel,
                         selectorType := "css",
                         matchReasons := ["placeholder " ++ sq placeholder] }
    | Option.none => Option.none))
  ++ ((p.findElementsXPath (xqPlaceholderPartial placeholder)).filterMap (fun e =>
    match genSel p e with
    | some sel => some { element := e, score := wPlaceholder * 8 / 10, selector := sel,
                         selectorType := "css",
                         matchReasons := ["partial placeholder " ++ sq placeholder] }
    | Option.none => Option.none))

/-- The ROLE_SELECTORS dict of dom_resolver.py. -/
def roleSelectors (role : String) : List String :=
  if role = "button" then
    ["button", "input[type=" ++ sq "button" ++ "]", "input[type=" ++ sq "submit" ++ "]",
     "[role=" ++ sq "button" ++ "]"]
  else if role = "link" then ["a", "[role=" ++ sq "link" ++ "]"]
  else if role = "input" then
    ["input:not([type=" ++ sq "button" ++ "]):not([type=" ++ sq "submit" ++ "])", "textarea"]
  else if role = "dropdown" then
    ["select", "[role=" ++ sq "combobox" ++ "]", "[role=" ++ sq "listbox" ++ "]"]
  else if role = "checkbox" then
    ["input[type=" ++ sq "checkbox" ++ "]", "[role=" ++ sq "checkbox" ++ "]"]
  else if role = "radio" then
    ["input[type=" ++ sq "radio" ++ "]", "[role=" ++ sq "radio" ++ "]"]
  else if role = "textbox" then
    ["input[type=" ++ sq "text" ++ "]", "input[type=" ++ sq "email" ++ "]",
     "input[type=" ++ sq "password" ++ "]", "textarea"]
  else []

/-- One role-strategy candidate: base role weight, boosted by the partial-text
weight when the truthy text hint occurs in the element's text or value. -/
def roleCandidate (p : Page) (role : String) (textHint : Option String) (e : ElementRef) :
    Option ScoredElement :=
  let scored : Score × List String :=
    if truthy textHint then
      let th := textHint.getD ""
      let elementText := (p.getAttribute e "textContent").getD ""
      let elementValue := (p.getAttribute e "value").getD ""
      if containsSub (lowerStr elementText) (lowerStr th) ||
         containsSub (lowerStr elementValue) (lowerStr th)
      then (wRoleMatch + wPartialText, ["role " ++ sq role, "text contains " ++ sq th])
      else (wRoleMatch, ["role " ++ sq role])
    else (wRoleMatch, ["role " ++ sq role])
  match genSel p e with
  | some sel => some { element := e, score := scored.1, selector := sel,
                       selectorType := "css", matchReasons := scored.2 }
  | Option.none => Option.none

/-- Embeds `DOMResolver._find_by_role`. -/
def find_by_role (p : Page) (role : String) (textHint : Option String) : List ScoredElement :=
  ((roleSelectors (lowerStr role)).map (fun sel =>
    (p.findElementsCss sel).filterMap (roleCandidate p role textHint))).flatten

/-- Concatenated per-strategy output of `DOMResolver._find_candidates`, before
de-duplication; each strategy is guarded by Python truthiness of its hint. -/
def rawCandidates (p : Page) (t : SemanticTarget) : List ScoredElement :=
  (if truthy t.text_hint then find_by_text p (t.text_hint.getD "") true else [])
  ++ (if truthy t.label_hint then find_by_aria_label p (t.label_hint.getD "") else [])
  ++ (if truthy t.label_hint then find_by_label_for p (t.label_hint.getD "") else [])
  ++ (if truthy t.placeholder_hint then find_by_placeholder p (t.placeholder_hint.getD "") else [])
  ++ (if truthy t.role_hint then find_by_role p (t.role_hint.getD "") t.text_hint else [])
  ++ (if truthy t.text_hint then find_by_text p (t.text_hint.getD "") false else [])

/-- The de-duplication loop at the end of `_find_candidates`: walk the
candidates in strategy order, keep the first candidate seen for each live
element id, skip handles whose id access raises (the `except
StaleElementReferenceException: continue` branch). -/
def dedupGo : List ScoredElement → List Nat → List ScoredElement
  | [], _ => []
  | c :: rest, seen =>
    match c.element with
    | ElementRef.stale => dedupGo rest seen
    | ElementRef.live n =>
      if n ∈ seen then dedupGo rest seen else c :: dedupGo rest (n :: seen)

/-- Embeds `DOMResolver._find_candidates`. -/
def find_candidates (p : Page) (t : SemanticTarget) : List ScoredElement :=
  dedupGo (rawCandidates p t) []

/-- Value type of `DOMResolver.cache` entries. -/
structure CacheEntry where
  selector : String
  type : String
  confidence : Score
  alternatives : List String
deriving DecidableEq

/-- `DOMResolver.cache`, a dict keyed by the target fingerprint.  Only lookup,
delete and assign are performed on it, so an association list is faithful. -/
abbrev Cache := List (String × CacheEntry)

/-- Dict lookup. -/
def lookupCache : Cache → String → Option CacheEntry
  | [], _ => Option.none
  | (k, v) :: rest, key => if k = key then some v else lookupCache rest key

/-- Dict `del`. -/
def eraseCache : Cache → String → Cache
  | [], _ => []
  | (k, v) :: rest, key =>
    if k = key then eraseCache rest key else (k, v) :: eraseCache rest key

/-- Dict assignment `cache[key] = entry`. -/
def insertCache : Cache → String → CacheEntry → Cache
  | [], key, e => [(key, e)]
  | (k, v) :: rest, key, e =>
    if k = key then (k, e) :: rest else (k, v) :: insertCache rest key e

/-- Embeds `DOMResolver._create_cache_key`. -/
def create_cache_key (t : SemanticTarget) : String :=
  lowerStr (String.intercalate "|"
    [t.text_hint.getD "", t.role_hint.getD "", t.label_hint.getD "",
     t.placeholder_hint.getD "", t.page_context.getD ""])

/-- The data `resolve` returns on success (element handle plus the fields of
the `ResolvedStep` it builds). -/
structure ResolveOk where
  element : ElementRef
  selector : String
  selectorType : String
  confidence : Score
  alternatives : List String
deriving DecidableEq

/-- Success or the NoSuchElementException raised when no candidate is found. -/
inductive ResolveResult where
  | ok (r : ResolveOk)
  | elementNotFound
deriving DecidableEq

/-- Result of one `resolve` call: its return value, the cache it leaves
behind, and whether the direct cached-selector re-locate path produced the
answer (`true`) or the full strategy search ran (`false`). -/
structure ResolveOutcome where
  result : ResolveResult
  cache : Cache
  usedCachePath : Bool
deriving DecidableEq

/-- Stable insertion preserving earlier elements before equal scores; folding
it right replicates Python's stable `sort(key=score, reverse=True)`. -/
def insertByScore (c : ScoredElement) : List ScoredElement → List ScoredElement
  | [] => [c]
  | x :: xs => if x.score > c.score then x :: insertByScore c xs else c :: x :: xs

/-- Stable descending sort by score, as `candidates.sort(key=..., reverse=True)`. -/
def sortByScoreDesc (l : List ScoredElement) : List ScoredElement := l.foldr insertByScore []

/-- The cache-miss path of `DOMResolver.resolve` (strategy search, empty-check,
sort, cache write); the source empty-checks before sorting, which sorting an
empty list reproduces. -/
def missOk (best : ScoredElement) (rest : List ScoredElement) : ResolveOk :=
  { element := best.element
    selector := best.selector
    selectorType := best.selectorType
    confidence := best.score
    alternatives := (rest.take 5).map (fun d => d.selector) }

def missEntry (best : ScoredElement) (rest : List ScoredElement) : CacheEntry :=
  { selector := best.selector
    type := best.selectorType
    confidence := best.score
    alternatives := (rest.take 5).map (fun d => d.selector) }

def resolve_miss (p : Page) (c : Cache) (t : SemanticTarget) : ResolveOutcome :=
  match sortByScoreDesc (find_candidates p t) with
  | [] => { result := ResolveResult.elementNotFound, cache := c, usedCachePath := false }
  | best :: rest =>
    { result := ResolveResult.ok (missOk best rest)
      cache := insertCache c (create_cache_key t) (missEntry best rest)
      usedCachePath := false }

/-- The `ResolveOk` built on the cache-hit path from a cache entry and the
element the cached selector re-located. -/
def hitOk (cached : CacheEntry) (element : ElementRef) : ResolveOk :=
  { element := element
    selector := cached.selector
    selectorType := cached.type
    confidence := cached.confidence
    alternatives := cached.alternatives }

/-- The cache entry matching a successful resolution result. -/
def entryOfOk (r : ResolveOk) : CacheEntry :=
  { selector := r.selector
    type := r.selectorType
    confidence := r.confidence
    alternatives := r.alternatives }

/-- Embeds `DOMResolver.resolve`.  The `wait` argument of the source only logs
when the element is not clickable in time and affects no returned data, so it
is not modelled. -/
def resolve (p : Page) (c : Cache) (t : SemanticTarget) : ResolveOutcome :=
  match lookupCache c (create_cache_key t) with
  | some cached =>
    match p.findElementCss cached.selector with
    | some element =>
      { result := ResolveResult.ok (hitOk cached element)
        cache := c
        usedCachePath := true }
    | Option.none => resolve_miss p (eraseCache c (create_cache_key t)) t
  | Option.none => resolve_miss p c t

theorem lookupCache_insertCache_self (c : Cache) (key : String) (e : CacheEntry) :
    lookupCache (insertCache c key e) key = some e := by
  induction c with
  | nil => simp [insertCache, lookupCache]
  | cons kv rest ih =>
    obtain ⟨k, v⟩ := kv
    by_cases h : k = key <;> simp [insertCache, lookupCache, h, ih]

theorem lookupCache_eraseCache_self (c : Cache) (key : String) :
    lookupCache (eraseCache c key) key = Option.none := by
  induction c with
  | nil => simp [eraseCache, lookupCache]
  | cons kv rest ih =>
    obtain ⟨k, v⟩ := kv
    by_cases h : k = key <;> simp [eraseCache, lookupCache, h, ih]

theorem resolve_miss_nil (p : Page) (c : Cache) (t : SemanticTarget)
    (hs : sortByScoreDesc (find_candidates p t) = []) :
    resolve_miss p c t =
      { result := ResolveResult.elementNotFound, cache := c, usedCachePath := false } := by
  unfold resolve_miss
  rw [hs]

theorem resolve_miss_cons (p : Page) (c : Cache) (t : SemanticTarget)
    (best : ScoredElement) (rest : List ScoredElement)
    (hs : sortByScoreDesc (find_candidates p t) = best :: rest) :
    resolve_miss p c t =
      { result := ResolveResult.ok (missOk best rest)
        cache := insertCache c (create_cache_key t) (missEntry best rest)
        usedCachePath := false } := by
  unfold resolve_miss
  rw [hs]

theorem entryOfOk_missOk (best : ScoredElement) (rest : List ScoredElement) :
    entryOfOk (missOk best rest) = missEntry best rest := rfl

theorem resolve_miss_ok_lookup (p : Page) (c : Cache) (t : SemanticTarget) (r : ResolveOk)
    (h : (resolve_miss p c t).result = ResolveResult.ok r) :
    lookupCache (resolve_miss p c t).cache (create_cache_key t) = some (entryOfOk r) := by
  rcases hs : sortByScoreDesc (find_candidates p t) with _ | ⟨best, rest⟩
  · rw [resolve_miss_nil p c t hs] at h
    exact absurd h (by simp)
  · rw [resolve_miss_cons p c t best rest hs] at h
    rw [resolve_miss_cons p c t best rest hs]
    simp only [ResolveResult.ok.injEq] at h
    rw [← h, entryOfOk_missOk]
    exact lookupCache_insertCache_self c (create_cache_key t) _

theorem resolve_eq_nocache (p : Page) (c : Cache) (t : SemanticTarget)
    (hl : lookupCache c (create_cache_key t) = Option.none) :
    resolve p c t = resolve_miss p c t := by
  unfold resolve
  rw [hl]

theorem resolve_eq_stale (p : Page) (c : Cache) (t : SemanticTarget) (cached : CacheEntry)
    (hl : lookupCache c (create_cache_key t) = some cached)
    (hf : p.findElementCss cached.selector = Option.none) :
    resolve p c t = resolve_miss p (eraseCache c (create_cache_key t)) t := by
  unfold resolve
  simp only [hl, hf]

theorem resolve_eq_hit (q : Page) (c : Cache) (t : SemanticTarget) (cached : CacheEntry)
    (e : ElementRef)
    (hl : lookupCache c (create_cache_key t) = some cached)
    (hf : q.findElementCss cached.selector = some e) :
    resolve q c t =
      { result := ResolveResult.ok (hitOk cached e)
        cache := c
        usedCachePath := true } := by
  unfold resolve
  simp only [hl, hf]

theorem entryOfOk_hitOk (cached : CacheEntry) (e : ElementRef) :
    entryOfOk (hitOk cached e) = cached := rfl

theorem resolve_ok_lookup (p : Page) (c : Cache) (t : SemanticTarget) (r : ResolveOk)
    (h : (resolve p c t).result = ResolveResult.ok r) :
    lookupCache (resolve p c t).cache (create_cache_key t) = some (entryOfOk r) := by
  rcases hl : lookupCache c (create_cache_key t) with _ | cached
  · rw [resolve_eq_nocache p c t hl] at h ⊢
    exact resolve_miss_ok_lookup p c t r h
  · rcases hf : p.findElementCss cached.selector with _ | el
    · rw [resolve_eq_stale p c t cached hl hf] at h ⊢
      exact resolve_miss_ok_lookup p _ t r h
    · rw [resolve_eq_hit p c t cached el hl hf] at h ⊢
      simp only [ResolveResult.ok.injEq] at h
      rw [← h, entryOfOk_hitOk, hl]

/-- C1: once `resolve` has succeeded with selector S for target T, a later
`resolve` of T whose cached selector still locates a live element returns S
with the cached confidence through the direct re-locate path alone: the
outcome is pinned by `findElementCss` at S (the second page `q` is arbitrary,
so no scoring strategy is consulted), the cache is untouched, and
`usedCachePath` is true.  Instantiating `q := p` is the unchanged-page case. -/
theorem resolve_cache_hit_after_success (p q : Page) (c : Cache) (t : SemanticTarget)
    (r : ResolveOk) (e : ElementRef)
    (h1 : (resolve p c t).result = ResolveResult.ok r)
    (h2 : q.findElementCss r.selector = some e) :
    resolve q (resolve p c t).cache t =
      { result := ResolveResult.ok (hitOk (entryOfOk r) e)
        cache := (resolve p c t).cache
        usedCachePath := true } := by
  exact resolve_eq_hit q (resolve p c t).cache t (entryOfOk r) e
    (resolve_ok_lookup p c t r h1) h2

theorem insertByScore_ne_nil (c : ScoredElement) (l : List ScoredElement) :
    insertByScore c l ≠ [] := by
  cases l with
  | nil => simp [insertByScore]
  | cons x xs =>
    simp only [insertByScore]
    split <;> simp

theorem sortByScoreDesc_ne_nil (l : List ScoredElement) (h : l ≠ []) :
    sortByScoreDesc l ≠ [] := by
  cases l with
  | nil => exact absurd rfl h
  | cons x xs => exact insertByScore_ne_nil x (sortByScoreDesc xs)

/-- C2: a cached entry whose selector no longer matches any element is evicted
before anything else: `resolve` behaves exactly like the full-search path on
the cache with the entry erased; a failure leaves no entry under the key (so
the run did not fail with the stale entry still cached); a non-empty candidate
set yields success rather than ElementNotFound; and success writes the fresh
selector, kind, confidence and top-5 alternatives back under the key. -/
theorem resolve_stale_eviction (p : Page) (c : Cache) (t : SemanticTarget) (entry : CacheEntry)
    (h1 : lookupCache c (create_cache_key t) = some entry)
    (h2 : p.findElementCss entry.selector = Option.none) :
    resolve p c t = resolve_miss p (eraseCache c (create_cache_key t)) t
    ∧ ((resolve p c t).result = ResolveResult.elementNotFound →
        lookupCache (resolve p c t).cache (create_cache_key t) = Option.none)
    ∧ (find_candidates p t ≠ [] → ∃ r, (resolve p c t).result = ResolveResult.ok r)
    ∧ (∀ r, (resolve p c t).result = ResolveResult.ok r →
        lookupCache (resolve p c t).cache (create_cache_key t) = some (entryOfOk r)
        ∧ r.alternatives =
            (((sortByScoreDesc (find_candidates p t)).drop 1).take 5).map (fun d => d.selector)) := by
  have heq := resolve_eq_stale p c t entry h1 h2
  refine ⟨heq, ?_, ?_, ?_⟩
  · intro hnf
    rw [heq] at hnf ⊢
    rcases hs : sortByScoreDesc (find_candidates p t) with _ | ⟨best, rest⟩
    · rw [resolve_miss_nil p _ t hs]
      exact lookupCache_eraseCache_self c (create_cache_key t)
    · rw [resolve_miss_cons p _ t best rest hs] at hnf
      exact absurd hnf (by simp)
  · intro hne
    rw [heq]
    rcases hs : sortByScoreDesc (find_candidates p t) with _ | ⟨best, rest⟩
    · exact absurd hs (sortByScoreDesc_ne_nil _ hne)
    · rw [resolve_miss_cons p _ t best rest hs]
      exact ⟨missOk best rest, rfl⟩
  · intro r hok
    rw [heq] at hok ⊢
    refine ⟨resolve_miss_ok_lookup p _ t r hok, ?_⟩
    rcases hs : sortByScoreDesc (find_candidates p t) with _ | ⟨best, rest⟩
    · rw [resolve_miss_nil p _ t hs] at hok
      exact absurd hok (by simp)
    · rw [resolve_miss_cons p _ t best rest hs] at hok
      simp only [ResolveResult.ok.injEq] at hok
      subst hok
      rfl

/-- Boolean test that a candidate refers to the live element with id `n`. -/
def elemPred (n : Nat) (d : ScoredElement) : Bool := decide (d.element = ElementRef.live n)

theorem dedupGo_mem (l : List ScoredElement) (seen : List Nat) (c : ScoredElement) (n : Nat)
    (hm : c ∈ dedupGo l seen) (he : c.element = ElementRef.live n) :
    n ∉ seen ∧ l.find? (elemPred n) = some c := by
  induction l generalizing seen with
  | nil => simp [dedupGo] at hm
  | cons d rest ih =>
    cases hd : d.element with
    | stale =>
      simp only [dedupGo, hd] at hm
      have hih := ih seen hm
      refine ⟨hih.1, ?_⟩
      rw [List.find?_cons_of_neg]
      · exact hih.2
      · simp [elemPred, hd]
    | live m =>
      by_cases hseen : m ∈ seen
      · simp only [dedupGo, hd, if_pos hseen] at hm
        have hih := ih seen hm
        have hne : m ≠ n := fun hEq => hih.1 (hEq ▸ hseen)
        refine ⟨hih.1, ?_⟩
        rw [List.find?_cons_of_neg]
        · exact hih.2
        · simp [elemPred, hd, hne]
      · simp only [dedupGo, hd, if_neg hseen] at hm
        rcases List.mem_cons.mp hm with hc | hc
        · subst hc
          rw [hd] at he
          injection he with hmn
          subst hmn
          refine ⟨hseen, ?_⟩
          rw [List.find?_cons_of_pos rest (by simp [elemPred, hd])]
        · have hih := ih (m :: seen) hc
          have hnn : n ∉ m :: seen := hih.1
          refine ⟨fun hn => hnn (List.mem_cons_of_mem _ hn), ?_⟩
          have hne : m ≠ n := fun hEq => hnn (hEq ▸ List.mem_cons_self _ _)
          rw [List.find?_cons_of_neg]
          · exact hih.2
          · simp [elemPred, hd, hne]

theorem dedupGo_filter_seen (l : List ScoredElement) (seen : List Nat) (n : Nat)
    (hn : n ∈ seen) :
    (dedupGo l seen).filter (elemPred n) = [] := by
  induction l generalizing seen with
  | nil => simp [dedupGo]
  | cons d rest ih =>
    cases hd : d.element with
    | stale =>
      simp only [dedupGo, hd]
      exact ih seen hn
    | live m =>
      by_cases hseen : m ∈ seen
      · simp only [dedupGo, hd, if_pos hseen]
        exact ih seen hn
      · simp only [dedupGo, hd, if_neg hseen]
        have hne : m ≠ n := fun hEq => hseen (hEq ▸ hn)
        rw [List.filter_cons_of_neg]
        · exact ih (m :: seen) (List.mem_cons_of_mem _ hn)
        · simp [elemPred, hd, hne]

theorem dedupGo_filter (l : List ScoredElement) (seen : List Nat) (n : Nat) (hn : n ∉ seen) :
    (dedupGo l seen).filter (elemPred n) =
      (match l.find? (elemPred n) with
       | some c => [c]
       | Option.none => []) := by
  induction l generalizing seen with
  | nil => simp [dedupGo]
  | cons d rest ih =>
    cases hd : d.element with
    | stale =>
      have hp : elemPred n d = false := by simp [elemPred, hd]
      simp only [dedupGo, hd]
      rw [List.find?_cons_of_neg _ (by simp [hp])]
      exact ih seen hn
    | live m =>
      by_cases hseen : m ∈ seen
      · have hne : m ≠ n := fun hEq => hn (hEq ▸ hseen)
        have hp : elemPred n d = false := by simp [elemPred, hd, hne]
        simp only [dedupGo, hd, if_pos hseen]
        rw [List.find?_cons_of_neg _ (by simp [hp])]
        exact ih seen hn
      · simp only [dedupGo, hd, if_neg hseen]
        by_cases hmn : m = n
        · subst hmn
          have hp : elemPred m d = true := by simp [elemPred, hd]
          rw [List.filter_cons_of_pos hp, List.find?_cons_of_pos rest hp]
          rw [dedupGo_filter_seen rest (m :: seen) m (List.mem_cons_self _ _)]
        · have hp : elemPred n d = false := by simp [elemPred, hd, hmn]
          have hnm : n ∉ m :: seen := by
            intro hmem
            rcases List.mem_cons.mp hmem with hEq | hmem2
            · exact hmn hEq.symm
            · exact hn hmem2
          rw [List.filter_cons_of_neg (by simp [hp]), List.find?_cons_of_neg _ (by simp [hp])]
          exact ih (m :: seen) hnm

/-- C3 amended: for every live element any strategy discovered (any raw
candidate referring to it, hence in particular every element discovered by
more than one strategy), de-duplication keeps EXACTLY ONE candidate for it:
the filter of the kept list by that element is a singleton `[c]` (existence
and uniqueness), and `c` is the FIRST raw candidate in strategy discovery
order referring to that element (`find?`), carrying the score of the earliest
strategy that discovered it -- which the counterexample shows need not be the
highest score assigned. -/
theorem find_candidates_dedup_first (p : Page) (t : SemanticTarget) (n : Nat)
    (x : ScoredElement)
    (h1 : x ∈ rawCandidates p t) (h2 : x.element = ElementRef.live n) :
    ∃ c, (rawCandidates p t).find? (elemPred n) = some c
      ∧ (find_candidates p t).filter (elemPred n) = [c] := by
  have hsome : ((rawCandidates p t).find? (elemPred n)).isSome :=
    List.find?_isSome.mpr ⟨x, h1, by simp [elemPred, h2]⟩
  rcases hfind : (rawCandidates p t).find? (elemPred n) with _ | c
  · rw [hfind] at hsome
    exact absurd hsome (by simp)
  · refine ⟨c, rfl, ?_⟩
    have hf := dedupGo_filter (rawCandidates p t) [] n (by simp)
    rw [hfind] at hf
    exact hf

/-- The single live element of the concrete page below. -/
def el1 : ElementRef := ElementRef.live 1

/-- Concrete page: one text input `#email` with placeholder "Email" and
current value "john@example.com". -/
def P0 : Page :=
  { findElementCss := fun s => if s = "#email" then some el1 else Option.none
    findElementsXPath := fun q =>
      if q = xqPlaceholderExact "Email" then [el1]
      else if q = xqPlaceholderPartial "Email" then [el1]
      else if q = xqPartialText "john" then [el1]
      else []
    findElementsCss := fun s => if s = "input[type=" ++ sq "text" ++ "]" then [el1] else []
    findElementById := fun _ => Option.none
    getAttribute := fun e a =>
      if e = el1 ∧ a = "value" then some "john@example.com"
      else if e = el1 ∧ a = "textContent" then some ""
      else Option.none
    findNestedInputTag := fun _ => Option.none
    generateSelector := fun e => if e = el1 then some "#email" else Option.none }

/-- Concrete target: text hint "john", role hint "textbox", placeholder hint
"Email". -/
def T0 : SemanticTarget :=
  { text_hint := some "john"
    role_hint := some "textbox"
    label_hint := Option.none
    placeholder_hint := some "Email"
    relative_hint := Option.none
    page_context := Option.none
    visual_description := Option.none }

/-- The candidate the placeholder strategy produces for `#email` on `P0`. -/
def c3cand : ScoredElement :=
  { element := el1
    score := wPlaceholder
    selector := "#email"
    selectorType := "css"
    matchReasons := ["placeholder " ++ sq "Email"] }

/-- C3 counterexample: on `P0`/`T0` element 1 is discovered by the placeholder
strategy (score 0.85, i.e. 8500) and again by the boosted role strategy (score
1.0, i.e. 10000), but de-duplication keeps the candidate with score 0.85 --
not the highest score a strategy assigned to that element. -/
theorem dedup_keeps_first_not_highest :
    ((find_candidates P0 T0).map (fun d => (d.element, d.score)) = [(el1, 8500)])
    ∧ (rawCandidates P0 T0).any (fun d => elemPred 1 d && decide (d.score = 10000)) = true := by
  decide

theorem find_candidates_dedup_first_witness :
    (c3cand ∈ rawCandidates P0 T0 ∧ c3cand.element = ElementRef.live 1)
    ∧ (∃ c, (rawCandidates P0 T0).find? (elemPred 1) = some c
        ∧ (find_candidates P0 T0).filter (elemPred 1) = [c]) :=
  ⟨⟨by decide, by decide⟩, find_candidates_dedup_first P0 T0 1 c3cand (by decide) (by decide)⟩

/-- A cache entry whose selector matches nothing on `P0`. -/
def staleEntry : CacheEntry :=
  { selector := "#gone"
    type := "css"
    confidence := 5000
    alternatives := [] }

theorem resolve_stale_eviction_witness :
    (lookupCache [(create_cache_key T0, staleEntry)] (create_cache_key T0) = some staleEntry)
    ∧ (P0.findElementCss staleEntry.selector = Option.none)
    ∧ (∃ r, (resolve P0 [(create_cache_key T0, staleEntry)] T0).result = ResolveResult.ok r) :=
  ⟨by decide, by decide,
   (resolve_stale_eviction P0 [(create_cache_key T0, staleEntry)] T0 staleEntry
      (by decide) (by decide)).2.2.1 (by decide)⟩

theorem resolve_cache_hit_after_success_witness :
    ((resolve P0 [] T0).result = ResolveResult.ok (missOk c3cand []))
    ∧ (P0.findElementCss (missOk c3cand []).selector = some el1)
    ∧ resolve P0 (resolve P0 [] T0).cache T0 =
        { result := ResolveResult.ok (hitOk (entryOfOk (missOk c3cand [])) el1)
          cache := (resolve P0 [] T0).cache
          usedCachePath := true } :=
  ⟨by decide, by decide,
   resolve_cache_hit_after_success P0 P0 [] T0 (missOk c3cand []) el1 (by decide) (by decide)⟩

/-- RunStatus enum of app/models/schemas.py. -/
inductive RunStatus where
  | queued
  | running
  | waiting_for_auth
  | needs_user_disambiguation
  | succeeded
  | failed
deriving DecidableEq

/-- LogEntry of app/models/schemas.py.  The `ts` timestamp field is omitted:
`_utc_now_iso` reads the wall clock and no claim concerns timestamps. -/
structure LogEntryM where
  level : String
  message : String
  step_index : Option Nat
  screenshot_path : Option String
deriving DecidableEq

/-- RunState of app/models/schemas.py (the `disambiguation` payload is not
modelled; no claim concerns it). -/
structure RunState where
  run_id : String
  workflow_id : String
  status : RunStatus
  current_step : Nat
  total_steps : Nat
  logs : List LogEntryM
deriving DecidableEq

/-- The module-level `runs` dict of storage.py.  Only `get` and item
assignment are performed on it, so an association list is faithful;
`_persist_runs` writes the same mapping to disk and is not separately
modelled. -/
abbrev Store := List (String × RunState)

/-- Dict `runs.get(run_id)`. -/
def lookupStore : Store → String → Option RunState
  | [], _ => Option.none
  | (k, v) :: rest, key => if k = key then some v else lookupStore rest key

/-- Dict assignment `runs[run_id] = run`. -/
def insertStore : Store → String → RunState → Store
  | [], key, v => [(key, v)]
  | (k, v0) :: rest, key, v =>
    if k = key then (k, v) :: rest else (k, v0) :: insertStore rest key v

/-- Embeds `add_log` of storage.py. -/
def add_log (runs : Store) (run_id : String) (level : String) (message : String)
    (step_index : Option Nat) (screenshot_path : Option String) :
    Option LogEntryM × Store :=
  match lookupStore runs run_id with
  | Option.none => (Option.none, runs)
  | some run =>
    let log : LogEntryM :=
      { level := level
        message := message
        step_index := step_index
        screenshot_path := screenshot_path }
    (some log, insertStore runs run_id { run with logs := run.logs ++ [log] })

/-- Embeds `update_run` of storage.py.  Faithful detail: `run` is read before
the `if error: add_log(...)` call and `updated` is built from that earlier
snapshot, so the final assignment overwrites the error log entry `add_log`
just appended.  Python `if error:` truthiness is `truthy`. -/
def update_run (runs : Store) (run_id : String) (status : Option RunStatus)
    (current_step : Option Nat) (error : Option String) : Option RunState × Store :=
  match lookupStore runs run_id with
  | Option.none => (Option.none, runs)
  | some run =>
    let runs1 :=
      if truthy error then
        (add_log runs run_id "error" (error.getD "") Option.none Option.none).2
      else runs
    let updated :=
      { run with
        status := status.getD run.status
        current_step := current_step.getD run.current_step }
    (some updated, insertStore runs1 run_id updated)

/-- C9: `update_run` and `add_log` on a run id absent from the store both
return None and leave the store exactly as it was -- no run record is created
and no log entry is written.  On this path the Python bodies execute only
`runs.get(run_id)` and `return None`, so no exception escapes either function,
which the totality of this embedding reflects. -/
theorem update_missing_run_noop (runs : Store) (run_id : String) (status : Option RunStatus)
    (current_step : Option Nat) (error : Option String) (level : String) (message : String)
    (step_index : Option Nat) (screenshot_path : Option String)
    (h : lookupStore runs run_id = Option.none) :
    update_run runs run_id status current_step error = (Option.none, runs)
    ∧ add_log runs run_id level message step_index screenshot_path = (Option.none, runs) := by
  constructor
  · unfold update_run
    simp only [h]
  · unfold add_log
    simp only [h]

theorem update_missing_run_noop_witness :
    lookupStore [] "run_404" = Option.none
    ∧ (update_run [] "run_404" (some RunStatus.running) (some 2) (some "boom")
        = (Option.none, [])
       ∧ add_log [] "run_404" "info" "hello" Option.none Option.none = (Option.none, [])) :=
  ⟨rfl, update_missing_run_noop [] "run_404" (some RunStatus.running) (some 2) (some "boom")
          "info" "hello" Option.none Option.none rfl⟩

/-- A run record already in the terminal SUCCEEDED state. -/
def doneRun : RunState :=
  { run_id := "r1"
    workflow_id := "wf"
    status := RunStatus.succeeded
    current_step := 3
    total_steps := 3
    logs := [] }

/-- C4 counterexample: `update_run` has no terminal-state guard.  Called with
an explicit status on a SUCCEEDED run it transitions the run to RUNNING, both
in its return value and in the store, contradicting the claim that no
update_run call ever transitions a run out of a terminal status. -/
theorem update_run_leaves_terminal :
    ((update_run [("r1", doneRun)] "r1" (some RunStatus.running) Option.none Option.none).1.map
        (fun r => r.status) = some RunStatus.running)
    ∧ ((lookupStore (update_run [("r1", doneRun)] "r1" (some RunStatus.running) Option.none
          Option.none).2 "r1").map (fun r => r.status) = some RunStatus.running) := by
  decide

/-- FastAPI HTTPException payload. -/
structure HTTPErr where
  status_code : Nat
  detail : String
deriving DecidableEq

/-- Embeds the `continue_run` endpoint of routes_runs.py: the guards in source
order, then the lost-session step rollback and the QUEUED/current_step write.
`run_params` and `active_runners` are the key sets of the module-level dicts
(only membership of `run_id` is consulted); scheduling of the background task
is outside the store transition this models. -/
def continue_run (runs : Store) (run_params : List String) (active_runners : List String)
    (run_id : String) : Except HTTPErr (Store × Nat) :=
  match lookupStore runs run_id with
  | Option.none => Except.error { status_code := 404, detail := "Run not found." }
  | some run =>
    if run.status ≠ RunStatus.waiting_for_auth then
      Except.error { status_code := 400, detail := "Run is not waiting for authentication." }
    else if run_id ∉ run_params then
      Except.error { status_code := 400, detail := "Run parameters not found; cannot resume run." }
    else
      let resume_step :=
        if run_id ∈ active_runners then run.current_step else max 0 (run.current_step - 1)
      Except.ok
        ((update_run runs run_id (some RunStatus.queued) (some resume_step) Option.none).2,
         resume_step)

/-- C4 amended: the continue/resume endpoint never transitions a terminal run:
for a SUCCEEDED or FAILED run it fails with HTTP 400 before any store write.
`update_run` itself (see the counterexample) has no terminal-state guard and
applies whatever status it is given, and the runner writes statuses through it
unconditionally; terminal-state preservation rests on the callers, and this
endpoint -- the only one that re-enters execution of an existing run --
enforces it. -/
theorem continue_run_rejects_terminal (runs : Store) (run_params : List String)
    (active_runners : List String) (run_id : String) (run : RunState)
    (h1 : lookupStore runs run_id = some run)
    (h2 : run.status = RunStatus.succeeded ∨ run.status = RunStatus.failed) :
    continue_run runs run_params active_runners run_id =
      Except.error { status_code := 400, detail := "Run is not waiting for authentication." } := by
  have hne : run.status ≠ RunStatus.waiting_for_auth := by
    rcases h2 with h | h <;> rw [h] <;> simp
  unfold continue_run
  simp only [h1]
  rw [if_pos hne]

theorem continue_run_rejects_terminal_witness :
    (lookupStore [("r1", doneRun)] "r1" = some doneRun
     ∧ doneRun.status = RunStatus.succeeded)
    ∧ continue_run [("r1", doneRun)] ["r1"] [] "r1" =
        Except.error { status_code := 400, detail := "Run is not waiting for authentication." } :=
  ⟨⟨by decide, rfl⟩,
   continue_run_rejects_terminal [("r1", doneRun)] ["r1"] [] "r1" doneRun (by decide)
     (Or.inl rfl)⟩

/-- Parameter maps: the `params` dict threaded through the runner.  Values are
modelled as strings (the run parameters of this backend are strings, and
`_resolve_param` returns `str(params[key])`, the identity on strings). -/
abbrev Params := List (String × String)

/-- Dict lookup `params.get(k)` / `k in params`. -/
def lookupP : Params → String → Option String
  | [], _ => Option.none
  | (k, v) :: rest, key => if k = key then some v else lookupP rest key

/-- Dict assignment `params[k] = v`. -/
def insertP : Params → String → String → Params
  | [], key, v => [(key, v)]
  | (k, v0) :: rest, key, v =>
    if k = key then (k, v) :: rest else (k, v0) :: insertP rest key v

/-- Python whitespace (the charset `str.strip` and `\s` use, ASCII range). -/
def isPySpace (c : Char) : Bool :=
  c = Char.ofNat 32 || c = Char.ofNat 9 || c = Char.ofNat 10 || c = Char.ofNat 13 ||
  c = Char.ofNat 11 || c = Char.ofNat 12

/-- Python `str.strip()`. -/
def pyStrip (s : String) : String :=
  String.mk (((s.data.dropWhile isPySpace).reverse.dropWhile isPySpace).reverse)

/-- Worker for `str.split()` (no separator): split on whitespace runs. -/
def splitWsGo : List Char → List Char → List String
  | [], acc => if acc.isEmpty then [] else [String.mk acc.reverse]
  | c :: cs, acc =>
    if isPySpace c then
      if acc.isEmpty then splitWsGo cs [] else String.mk acc.reverse :: splitWsGo cs []
    else splitWsGo cs (c :: acc)

/-- Python `str.split()` with no argument. -/
def pySplitWs (s : String) : List String := splitWsGo s.data []

/-- Python `s.split(" ", 1)`: the piece before the first space, and the rest
when a space exists. -/
def splitFirstSpaceGo : List Char → List Char → String × Option String
  | [], acc => (String.mk acc.reverse, Option.none)
  | c :: cs, acc =>
    if c = Char.ofNat 32 then (String.mk acc.reverse, some (String.mk cs))
    else splitFirstSpaceGo cs (c :: acc)

def splitFirstSpace (s : String) : String × Option String := splitFirstSpaceGo s.data []

/-- Regex word character (`\w` over ASCII). -/
def isWordChar (c : Char) : Bool := c.isAlphanum || c = Char.ofNat 95

/-- Whether a maximal digit run matches `\b(\d{3,5})\b`: 3 to 5 digits with
no word character adjacent on either side (the neighbours cannot be digits,
the run being maximal). -/
def runMatches (prevBefore : Option Char) (runRev : List Char) (next : Option Char) :
    Option String :=
  if runRev.isEmpty then Option.none
  else
    let leftOk := match prevBefore with
      | Option.none => true
      | some c => !(isWordChar c)
    let rightOk := match next with
      | Option.none => true
      | some c => !(isWordChar c)
    if leftOk && rightOk && decide (3 ≤ runRev.length) && decide (runRev.length ≤ 5) then
      some (String.mk runRev.reverse)
    else Option.none

/-- `re.search(r"\b(\d{3,5})\b", s)`: scan left to right, accumulating the
current maximal digit run, and return the first run that matches. -/
def roomIdScanGo : List Char → Option Char → List Char → Option String
  | [], prevBefore, runRev => runMatches prevBefore runRev Option.none
  | c :: cs, prevBefore, runRev =>
    if c.isDigit then roomIdScanGo cs prevBefore (c :: runRev)
    else
      match runMatches prevBefore runRev (some c) with
      | some r => some r
      | Option.none => roomIdScanGo cs (some c) []

def roomIdSearch (s : String) : Option String := roomIdScanGo s.data Option.none []

/-- `re.sub(r"[^A-Za-z0-9_-]", "", s)`. -/
def keepIdChars (s : String) : String :=
  String.mk (s.data.filter (fun c => c.isAlphanum || c = Char.ofNat 95 || c = Char.ofNat 45))

/-- Oracle for `WorkflowRunner._discover_room_page_url`: a deterministic scan
of the live page given the room keyword and optional library hint; its body
is driver interaction only and the claims quantify over its output. -/
abbrev DiscoverFn := String → Option String → Option String

/-- `str(params.get("library", "")).strip() or None`. -/
def libraryHint (p : Params) : Option String :=
  let l := pyStrip ((lookupP p "library").getD "")
  if l.isEmpty then Option.none else some l

/-- Stripped `room_keyword` value, as block 1 and block 2 of
`_inject_derived_params` compute it. -/
def roomKw (p : Params) : String := pyStrip ((lookupP p "room_keyword").getD "")

/-- First block of `_inject_derived_params`: discover `room_page_url` from
`room_keyword` via the page. -/
def inject1 (d : DiscoverFn) (p : Params) : Params :=
  if (lookupP p "room_page_url") = Option.none ∧ (lookupP p "room_keyword").isSome then
    if (roomKw p).isEmpty then p
    else
      match d (roomKw p) (libraryHint p) with
      | some u => insertP p "room_page_url" u
      | Option.none => p
  else p

/-- The room-id derivation inside the second block of
`_inject_derived_params`: regex match, else the keyword stripped of
non-identifier characters. -/
def inject2a (p : Params) (keyword : String) : Params :=
  if keyword.isEmpty then p
  else
    match roomIdSearch keyword with
    | some rid => insertP p "room_id" rid
    | Option.none => insertP p "room_id" (keepIdChars keyword)

/-- The dependent tail of block 2: set the Gateway URL from `room_id` when
`room_page_url` is still missing. -/
def inject2b (p2a : Params) : Params :=
  if (lookupP p2a "room_page_url") = Option.none ∧ (lookupP p2a "room_id").isSome then
    insertP p2a "room_page_url"
      ("https://spaces.lib.uci.edu/booking/Gateway/" ++ (lookupP p2a "room_id").getD "")
  else p2a

/-- Second block of `_inject_derived_params`: derive `room_id` from
`room_keyword` (regex match, else stripped keyword), then a Gateway URL from
`room_id` when `room_page_url` is still missing. -/
def inject2 (p : Params) : Params :=
  if (lookupP p "room_id") = Option.none ∧ (lookupP p "room_keyword").isSome then
    inject2b (inject2a p (roomKw p))
  else p

/-- `" ".join(str(params["full_name"]).strip().split())`. -/
def normName (p : Params) : String :=
  String.intercalate " " (pySplitWs ((lookupP p "full_name").getD ""))

/-- Third block of `_inject_derived_params`: split `full_name` into
`full_name_first` / `full_name_last` whenever either is missing -- note both
are (over)written in that case. -/
def inject3 (p : Params) : Params :=
  if (lookupP p "full_name").isSome then
    if (¬ (normName p).isEmpty) ∧
       ((lookupP p "full_name_first") = Option.none ∨ (lookupP p "full_name_last") = Option.none) then
      insertP (insertP p "full_name_first" (splitFirstSpace (normName p)).1)
        "full_name_last" ((splitFirstSpace (normName p)).2.getD ".")
    else p
  else p

/-- Embeds `WorkflowRunner._inject_derived_params` (dict mutation becomes a
returned updated map). -/
def inject_derived_params (d : DiscoverFn) (p : Params) : Params :=
  inject3 (inject2 (inject1 d p))

/-- The KeyError message of `_resolve_param`. -/
def missingMsg (key : String) : String := "Missing required workflow parameter: " ++ key

/-- Embeds `WorkflowRunner._resolve_param`: inject derived parameters when the
key is missing, then return the value or raise. -/
def resolve_param (d : DiscoverFn) (key : String) (p : Params) :
    Except String String × Params :=
  let p1 := if (lookupP p key) = Option.none then inject_derived_params d p else p
  match lookupP p1 key with
  | some v => (Except.ok v, p1)
  | Option.none => (Except.error (missingMsg key), p1)

/-- Regex `\s` (same ASCII whitespace set as `str.strip`). -/
def isReSpace (c : Char) : Bool := isPySpace c

/-- Opening and closing brace characters, via code points (this file writes no
raw brace glyph inside literals). -/
def lbrace : Char := Char.ofNat 123

def rbrace : Char := Char.ofNat 125

/-- `[a-zA-Z_]`. -/
def isIdentStart (c : Char) : Bool := c.isAlpha || c = Char.ofNat 95

/-- `[a-zA-Z0-9_]`. -/
def isIdentChar (c : Char) : Bool := c.isAlphanum || c = Char.ofNat 95

/-- Match `_PLACEHOLDER_PATTERN` at the head of the character list: two
braces, optional whitespace, an identifier, optional whitespace, two closing
braces; all sub-patterns are greedy over disjoint character classes, so this
deterministic parse agrees with the regex. -/
def parsePlaceholder (l : List Char) : Option (String × List Char) :=
  match l with
  | c1 :: c2 :: rest0 =>
    if c1 = lbrace ∧ c2 = lbrace then
      match rest0.dropWhile isReSpace with
      | c0 :: rest2 =>
        if isIdentStart c0 then
          let identTail := rest2.takeWhile isIdentChar
          match (rest2.dropWhile isIdentChar).dropWhile isReSpace with
          | d1 :: d2 :: rest5 =>
            if d1 = rbrace ∧ d2 = rbrace then some (String.mk (c0 :: identTail), rest5)
            else Option.none
          | _ => Option.none
        else Option.none
      | [] => Option.none
    else Option.none
  | _ => Option.none

/-- One pass of `_PLACEHOLDER_PATTERN.sub` with the `_resolve_param` callback
over a character list: try the pattern at each position; on a match emit the
resolved value (verbatim, as `re.sub` does with a callable) and continue after
the match; otherwise emit the character and advance one position.  The first
argument bounds the positions left to scan (callers pass the list length, so
the base truncation case is unreachable); it makes the recursion structural
and hence kernel-computable. -/
def substCharsF (d : DiscoverFn) :
    Nat → List Char → Params → Except String (List Char) × Params
  | _, [], p => (Except.ok [], p)
  | 0, _ :: _, p => (Except.ok [], p)
  | fuel + 1, c :: cs, p =>
    match parsePlaceholder (c :: cs) with
    | some (key, rest) =>
      (match resolve_param d key p with
       | (Except.error e, p1) => (Except.error e, p1)
       | (Except.ok v, p1) =>
         match substCharsF d fuel rest p1 with
         | (Except.error e, p2) => (Except.error e, p2)
         | (Except.ok out, p2) => (Except.ok (v.data ++ out), p2))
    | Option.none =>
      match substCharsF d fuel cs p with
      | (Except.error e, p1) => (Except.error e, p1)
      | (Except.ok out, p1) => (Except.ok (c :: out), p1)

/-- `_PLACEHOLDER_PATTERN.sub(resolve, s)` on a string. -/
def substString (d : DiscoverFn) (s : String) (p : Params) :
    Except String String × Params :=
  match substCharsF d s.data.length s.data p with
  | (Except.ok cs, p1) => (Except.ok (String.mk cs), p1)
  | (Except.error e, p1) => (Except.error e, p1)

mutual
/-- A Python value as produced by `Step.model_dump()`: strings, numbers,
booleans, None, lists and dicts (in insertion order).  Numbers are carried
opaquely (`num` stands for both int and float fields; substitution never
inspects them).  Lists and dicts use the mutually inductive spines `PyList`
and `PyFields` so that all recursion over values is structural. -/
inductive PyVal where
  | str (s : String)
  | num (n : Int)
  | bool (b : Bool)
  | none
  | list (xs : PyList)
  | dict (fields : PyFields)

/-- Spine of a Python list of values. -/
inductive PyList where
  | nil
  | cons (v : PyVal) (rest : PyList)

/-- Spine of a Python dict in insertion order. -/
inductive PyFields where
  | nil
  | cons (k : String) (v : PyVal) (rest : PyFields)
end

mutual
/-- The inner `substitute` closure of
`WorkflowRunner._substitute_step_placeholders` on one value; the parameter map
threads through because `_resolve_param` mutates it in place. -/
def substValue (d : DiscoverFn) : PyVal → Params → Except String PyVal × Params
  | PyVal.str s, p =>
    (match substString d s p with
     | (Except.ok out, p1) => (Except.ok (PyVal.str out), p1)
     | (Except.error e, p1) => (Except.error e, p1))
  | PyVal.dict kvs, p =>
    (match substFields d kvs p with
     | (Except.ok out, p1) => (Except.ok (PyVal.dict out), p1)
     | (Except.error e, p1) => (Except.error e, p1))
  | PyVal.list xs, p =>
    (match substList d xs p with
     | (Except.ok out, p1) => (Except.ok (PyVal.list out), p1)
     | (Except.error e, p1) => (Except.error e, p1))
  | v, p => (Except.ok v, p)

/-- `[substitute(v) for v in value]`. -/
def substList (d : DiscoverFn) : PyList → Params → Except String PyList × Params
  | PyList.nil, p => (Except.ok PyList.nil, p)
  | PyList.cons v vs, p =>
    match substValue d v p with
    | (Except.error e, p1) => (Except.error e, p1)
    | (Except.ok v1, p1) =>
      match substList d vs p1 with
      | (Except.error e, p2) => (Except.error e, p2)
      | (Except.ok out, p2) => (Except.ok (PyList.cons v1 out), p2)

/-- `{k: substitute(v) for k, v in value.items()}`. -/
def substFields (d : DiscoverFn) : PyFields → Params → Except String PyFields × Params
  | PyFields.nil, p => (Except.ok PyFields.nil, p)
  | PyFields.cons k v kvs, p =>
    match substValue d v p with
    | (Except.error e, p1) => (Except.error e, p1)
    | (Except.ok v1, p1) =>
      match substFields d kvs p1 with
      | (Except.error e, p2) => (Except.error e, p2)
      | (Except.ok out, p2) => (Except.ok (PyFields.cons k v1 out), p2)
end

/-- Embeds `WorkflowRunner._substitute_step_placeholders`: dump the step,
substitute every string in it, re-validate.  `model_dump`/`model_validate`
round-trip to the identity on well-formed step dumps, so the step is carried
as its dump. -/
def substitute_step_placeholders (d : DiscoverFn) (step : PyVal) (p : Params) :
    Except String PyVal × Params :=
  substValue d step p

theorem lookupP_insertP (p : Params) (k v k2 : String) :
    lookupP (insertP p k v) k2 = if k2 = k then some v else lookupP p k2 := by
  induction p with
  | nil =>
    simp only [insertP, lookupP]
    by_cases h : k = k2
    · simp [h]
    · simp [h, Ne.symm h]
  | cons kv0 rest ih =>
    obtain ⟨k0, v0⟩ := kv0
    by_cases h0 : k0 = k
    · subst h0
      simp only [insertP, if_pos rfl, lookupP]
      by_cases h2 : k0 = k2
      · simp [h2]
      · simp [h2, Ne.symm h2]
    · simp only [insertP, if_neg h0, lookupP]
      by_cases h2 : k0 = k2
      · subst h2
        simp [h0]
      · simp [h2, ih]

theorem lookupP_insertP_self (p : Params) (k v : String) :
    lookupP (insertP p k v) k = some v := by
  rw [lookupP_insertP]
  simp

theorem lookupP_insertP_other (p : Params) (k v k2 : String) (h : k2 ≠ k) :
    lookupP (insertP p k v) k2 = lookupP p k2 := by
  rw [lookupP_insertP]
  simp [h]

theorem insertP_isSome (p : Params) (k v k2 : String) (h : (lookupP p k2).isSome) :
    (lookupP (insertP p k v) k2).isSome := by
  rw [lookupP_insertP]
  split <;> simp [h]

theorem inject1_lookup_other (d : DiscoverFn) (p : Params) (k : String)
    (hk : k ≠ "room_page_url") :
    lookupP (inject1 d p) k = lookupP p k := by
  unfold inject1
  split
  · split
    · rfl
    · split
      · rw [lookupP_insertP_other _ _ _ _ hk]
      · rfl
  · rfl

theorem inject2a_lookup_other (p : Params) (kw : String) (k : String) (hk : k ≠ "room_id") :
    lookupP (inject2a p kw) k = lookupP p k := by
  unfold inject2a
  split
  · rfl
  · split <;> rw [lookupP_insertP_other _ _ _ _ hk]

theorem inject2b_lookup_other (p : Params) (k : String) (h2 : k ≠ "room_page_url") :
    lookupP (inject2b p) k = lookupP p k := by
  unfold inject2b
  split
  · rw [lookupP_insertP_other _ _ _ _ h2]
  · rfl

theorem inject2_lookup_other (p : Params) (k : String) (h1 : k ≠ "room_id")
    (h2 : k ≠ "room_page_url") :
    lookupP (inject2 p) k = lookupP p k := by
  unfold inject2
  split
  · rw [inject2b_lookup_other _ _ h2, inject2a_lookup_other _ _ _ h1]
  · rfl

theorem inject3_lookup_other (p : Params) (k : String) (h1 : k ≠ "full_name_first")
    (h2 : k ≠ "full_name_last") :
    lookupP (inject3 p) k = lookupP p k := by
  unfold inject3
  split
  · split
    · rw [lookupP_insertP_other _ _ _ _ h2, lookupP_insertP_other _ _ _ _ h1]
    · rfl
  · rfl

theorem inject1_isSome (d : DiscoverFn) (p : Params) (k : String)
    (h : (lookupP p k).isSome) : (lookupP (inject1 d p) k).isSome := by
  unfold inject1
  split
  · split
    · exact h
    · split
      · exact insertP_isSome _ _ _ _ h
      · exact h
  · exact h

theorem inject2a_isSome (p : Params) (kw : String) (k : String)
    (h : (lookupP p k).isSome) : (lookupP (inject2a p kw) k).isSome := by
  unfold inject2a
  split
  · exact h
  · split <;> exact insertP_isSome _ _ _ _ h

theorem inject2b_isSome (p : Params) (k : String)
    (h : (lookupP p k).isSome) : (lookupP (inject2b p) k).isSome := by
  unfold inject2b
  split
  · exact insertP_isSome _ _ _ _ h
  · exact h

theorem inject2_isSome (p : Params) (k : String)
    (h : (lookupP p k).isSome) : (lookupP (inject2 p) k).isSome := by
  unfold inject2
  split
  · exact inject2b_isSome _ _ (inject2a_isSome _ _ _ h)
  · exact h

theorem inject3_isSome (p : Params) (k : String)
    (h : (lookupP p k).isSome) : (lookupP (inject3 p) k).isSome := by
  unfold inject3
  split
  · split
    · exact insertP_isSome _ _ _ _ (insertP_isSome _ _ _ _ h)
    · exact h
  · exact h

theorem inject_isSome (d : DiscoverFn) (p : Params) (k : String)
    (h : (lookupP p k).isSome) : (lookupP (inject_derived_params d p) k).isSome :=
  inject3_isSome _ _ (inject2_isSome _ _ (inject1_isSome d _ _ h))

theorem inject_lookup_kw (d : DiscoverFn) (p : Params) :
    lookupP (inject_derived_params d p) "room_keyword" = lookupP p "room_keyword" := by
  unfold inject_derived_params
  rw [inject3_lookup_other _ _ (by decide) (by decide),
      inject2_lookup_other _ _ (by decide) (by decide),
      inject1_lookup_other _ _ _ (by decide)]

theorem inject_lookup_lib (d : DiscoverFn) (p : Params) :
    lookupP (inject_derived_params d p) "library" = lookupP p "library" := by
  unfold inject_derived_params
  rw [inject3_lookup_other _ _ (by decide) (by decide),
      inject2_lookup_other _ _ (by decide) (by decide),
      inject1_lookup_other _ _ _ (by decide)]

theorem inject_roomKw (d : DiscoverFn) (p : Params) :
    roomKw (inject_derived_params d p) = roomKw p := by
  unfold roomKw
  rw [inject_lookup_kw]

theorem inject_libraryHint (d : DiscoverFn) (p : Params) :
    libraryHint (inject_derived_params d p) = libraryHint p := by
  unfold libraryHint
  rw [inject_lookup_lib]

theorem inject1_stable (d : DiscoverFn) (p : Params) :
    inject1 d (inject_derived_params d p) = inject_derived_params d p := by
  unfold inject1
  by_cases hurl : lookupP (inject_derived_params d p) "room_page_url" = Option.none
  case neg => simp [hurl]
  case pos =>
    by_cases hkw : (lookupP (inject_derived_params d p) "room_keyword").isSome
    case neg => simp [hurl, hkw]
    case pos =>
      rw [if_pos ⟨hurl, hkw⟩]
      by_cases hempty : (roomKw (inject_derived_params d p)).isEmpty
      · rw [if_pos hempty]
      · rw [if_neg hempty]
        rcases hd : d (roomKw (inject_derived_params d p))
            (libraryHint (inject_derived_params d p)) with _ | u
        · rfl
        · exfalso
          rw [inject_roomKw, inject_libraryHint] at hd
          have hkwp : (lookupP p "room_keyword").isSome := by
            rw [← inject_lookup_kw d p]; exact hkw
          have hkwne : ¬ (roomKw p).isEmpty = true := by
            rw [← inject_roomKw d p]; exact hempty
          rcases ho : lookupP p "room_page_url" with _ | u0
          · have h1 : lookupP (inject1 d p) "room_page_url" = some u := by
              unfold inject1
              rw [if_pos ⟨ho, hkwp⟩, if_neg hkwne]
              simp only [hd]
              exact lookupP_insertP_self p "room_page_url" u
            have h2 : (lookupP (inject_derived_params d p) "room_page_url").isSome := by
              unfold inject_derived_params
              exact inject3_isSome _ _ (inject2_isSome _ _ (by simp [h1]))
            rw [hurl] at h2
            exact absurd h2 (by simp)
          · have h2 : (lookupP (inject_derived_params d p) "room_page_url").isSome :=
              inject_isSome d p _ (by simp [ho])
            rw [hurl] at h2
            exact absurd h2 (by simp)

theorem inject2a_sets_id (p : Params) (kw : String) (h : ¬ kw.isEmpty = true) :
    (lookupP (inject2a p kw) "room_id").isSome := by
  unfold inject2a
  rw [if_neg h]
  rcases roomIdSearch kw with _ | rid <;> simp [lookupP_insertP_self]

theorem inject2_stable (d : DiscoverFn) (p : Params) :
    inject2 (inject_derived_params d p) = inject_derived_params d p := by
  unfold inject2
  by_cases hid : lookupP (inject_derived_params d p) "room_id" = Option.none
  case neg => simp [hid]
  case pos =>
    by_cases hkw : (lookupP (inject_derived_params d p) "room_keyword").isSome
    case neg => simp [hid, hkw]
    case pos =>
      rw [if_pos ⟨hid, hkw⟩]
      by_cases hempty : (roomKw (inject_derived_params d p)).isEmpty
      · unfold inject2a
        rw [if_pos hempty]
        unfold inject2b
        rw [if_neg ?hguard]
        case hguard =>
          intro hc
          rw [hid] at hc
          exact absurd hc.2 (by simp)
      · exfalso
        have hid2 : lookupP (inject2 (inject1 d p)) "room_id" = Option.none := by
          have hpres := inject3_lookup_other (inject2 (inject1 d p)) "room_id"
            (by decide) (by decide)
          unfold inject_derived_params at hid
          rw [hpres] at hid
          exact hid
        have hkw1 : (lookupP (inject1 d p) "room_keyword").isSome := by
          have h0 : (lookupP p "room_keyword").isSome := by
            rw [← inject_lookup_kw d p]; exact hkw
          rw [inject1_lookup_other _ _ _ (by decide)]
          exact h0
        have hkwne1 : ¬ (roomKw (inject1 d p)).isEmpty = true := by
          have hkweq : roomKw (inject1 d p) = roomKw p := by
            unfold roomKw
            rw [inject1_lookup_other _ _ _ (by decide)]
          rw [hkweq, ← inject_roomKw d p]
          exact hempty
        by_cases hg : lookupP (inject1 d p) "room_id" = Option.none ∧
            (lookupP (inject1 d p) "room_keyword").isSome
        · have hset : (lookupP (inject2 (inject1 d p)) "room_id").isSome := by
            unfold inject2
            rw [if_pos hg]
            have h2a := inject2a_sets_id (inject1 d p) (roomKw (inject1 d p)) hkwne1
            exact inject2b_isSome (inject2a (inject1 d p) (roomKw (inject1 d p))) "room_id" h2a
          rw [hid2] at hset
          exact absurd hset (by simp)
        · have hidp1 : (lookupP (inject1 d p) "room_id").isSome := by
            rcases h1 : lookupP (inject1 d p) "room_id" with _ | v
            · exact absurd ⟨h1, hkw1⟩ hg
            · simp
          have h2 : (lookupP (inject2 (inject1 d p)) "room_id").isSome :=
            inject2_isSome _ _ hidp1
          rw [hid2] at h2
          exact absurd h2 (by simp)

theorem inject_lookup_fn (d : DiscoverFn) (p : Params) :
    lookupP (inject_derived_params d p) "full_name" = lookupP p "full_name" := by
  unfold inject_derived_params
  rw [inject3_lookup_other _ _ (by decide) (by decide),
      inject2_lookup_other _ _ (by decide) (by decide),
      inject1_lookup_other _ _ _ (by decide)]

theorem inject3_stable (d : DiscoverFn) (p : Params) :
    inject3 (inject_derived_params d p) = inject_derived_params d p := by
  unfold inject3
  by_cases hfn : (lookupP (inject_derived_params d p) "full_name").isSome
  case neg => simp [hfn]
  case pos =>
    rw [if_pos hfn]
    by_cases hg : (¬ (normName (inject_derived_params d p)).isEmpty = true) ∧
        (lookupP (inject_derived_params d p) "full_name_first" = Option.none ∨
         lookupP (inject_derived_params d p) "full_name_last" = Option.none)
    · exfalso
      have hfn2 : lookupP (inject2 (inject1 d p)) "full_name" =
          lookupP (inject_derived_params d p) "full_name" := by
        unfold inject_derived_params
        rw [inject3_lookup_other _ _ (by decide) (by decide)]
      by_cases hg2 : (¬ (normName (inject2 (inject1 d p))).isEmpty = true) ∧
          (lookupP (inject2 (inject1 d p)) "full_name_first" = Option.none ∨
           lookupP (inject2 (inject1 d p)) "full_name_last" = Option.none)
      · have hq : inject_derived_params d p =
            insertP (insertP (inject2 (inject1 d p)) "full_name_first"
              (splitFirstSpace (normName (inject2 (inject1 d p)))).1)
              "full_name_last"
              ((splitFirstSpace (normName (inject2 (inject1 d p)))).2.getD ".") := by
          unfold inject_derived_params inject3
          rw [if_pos ?hfp, if_pos hg2]
          case hfp =>
            rw [hfn2]
            exact hfn
        rcases hg.2 with hnone | hnone
        · rw [hq, lookupP_insertP_other _ _ _ _ (by decide), lookupP_insertP_self] at hnone
          exact absurd hnone (by simp)
        · rw [hq, lookupP_insertP_self] at hnone
          exact absurd hnone (by simp)
      · have hq : inject_derived_params d p = inject2 (inject1 d p) := by
          unfold inject_derived_params inject3
          rw [if_pos ?hfp, if_neg hg2]
          case hfp =>
            rw [hfn2]
            exact hfn
        rw [hq] at hg
        exact hg2 hg
    · rw [if_neg hg]

/-- `_inject_derived_params` is idempotent: a second injection pass over an
already-injected map changes nothing. -/
theorem inject_idem (d : DiscoverFn) (p : Params) :
    inject_derived_params d (inject_derived_params d p) = inject_derived_params d p := by
  conv_lhs => rw [inject_derived_params]
  rw [inject1_stable, inject2_stable, inject3_stable]

/-- Parameter-map states reachable during one substitution pass: the map the
pass started from, or its injection image (injection only ever runs through
`_resolve_param`, and is idempotent). -/
def Reach (d : DiscoverFn) (p q : Params) : Prop :=
  q = p ∨ q = inject_derived_params d p

theorem reach_trans (d : DiscoverFn) (p q r : Params) (h1 : Reach d p q) (h2 : Reach d q r) :
    Reach d p r := by
  rcases h1 with h1 | h1
  · subst h1
    exact h2
  · subst h1
    rcases h2 with h2 | h2
    · exact Or.inr h2
    · rw [inject_idem] at h2
      exact Or.inr h2

theorem resolve_param_reach (d : DiscoverFn) (key : String) (p : Params) :
    Reach d p (resolve_param d key p).2 := by
  unfold resolve_param
  by_cases h : lookupP p key = Option.none
  · simp only [if_pos h]
    rcases h2 : lookupP (inject_derived_params d p) key with _ | v <;>
      simp only [h2] <;> exact Or.inr rfl
  · simp only [if_neg h]
    rcases h2 : lookupP p key with _ | v <;> simp only [h2] <;> exact Or.inl rfl

theorem substCharsF_reach (d : DiscoverFn) (fuel : Nat) (l : List Char) (p : Params) :
    Reach d p (substCharsF d fuel l p).2 := by
  induction fuel generalizing l p with
  | zero => cases l <;> exact Or.inl rfl
  | succ fuel ih =>
    cases l with
    | nil => exact Or.inl rfl
    | cons c cs =>
      simp only [substCharsF]
      rcases hp : parsePlaceholder (c :: cs) with _ | ⟨key, rest⟩
      · simp only []
        rcases hs : substCharsF d fuel cs p with ⟨res, p1⟩
        have h1 := ih cs p
        rw [hs] at h1
        rcases res with e | out <;> exact h1
      · simp only []
        rcases hr : resolve_param d key p with ⟨res, p1⟩
        have h1 := resolve_param_reach d key p
        rw [hr] at h1
        rcases res with e | v
        · exact h1
        · rcases hs : substCharsF d fuel rest p1 with ⟨res2, p2⟩
          have h2 := ih rest p1
          rw [hs] at h2
          rcases res2 with e2 | out <;> simp only [hs] <;>
            exact reach_trans d p p1 p2 h1 h2

theorem substString_reach (d : DiscoverFn) (s : String) (p : Params) :
    Reach d p (substString d s p).2 := by
  unfold substString
  rcases hs : substCharsF d s.data.length s.data p with ⟨res, p1⟩
  have h1 := substCharsF_reach d s.data.length s.data p
  rw [hs] at h1
  rcases res with e | out <;> exact h1

mutual
theorem substValue_reach (d : DiscoverFn) (v : PyVal) (p : Params) :
    Reach d p (substValue d v p).2 := by
  cases v with
  | str s =>
    simp only [substValue]
    rcases hs : substString d s p with ⟨res, p1⟩
    have h1 := substString_reach d s p
    rw [hs] at h1
    rcases res with e | out <;> exact h1
  | dict kvs =>
    simp only [substValue]
    rcases hs : substFields d kvs p with ⟨res, p1⟩
    have h1 := substFields_reach d kvs p
    rw [hs] at h1
    rcases res with e | out <;> exact h1
  | list xs =>
    simp only [substValue]
    rcases hs : substList d xs p with ⟨res, p1⟩
    have h1 := substList_reach d xs p
    rw [hs] at h1
    rcases res with e | out <;> exact h1
  | num n => exact Or.inl rfl
  | bool b => exact Or.inl rfl
  | none => exact Or.inl rfl

theorem substList_reach (d : DiscoverFn) (vs : PyList) (p : Params) :
    Reach d p (substList d vs p).2 := by
  cases vs with
  | nil => exact Or.inl rfl
  | cons v rest =>
    simp only [substList]
    rcases hv : substValue d v p with ⟨res, p1⟩
    have h1 := substValue_reach d v p
    rw [hv] at h1
    rcases res with e | v1
    · exact h1
    · rcases hs : substList d rest p1 with ⟨res2, p2⟩
      have h2 := substList_reach d rest p1
      rw [hs] at h2
      rcases res2 with e2 | out <;> simp only [hs] <;> exact reach_trans d p p1 p2 h1 h2

theorem substFields_reach (d : DiscoverFn) (kvs : PyFields) (p : Params) :
    Reach d p (substFields d kvs p).2 := by
  cases kvs with
  | nil => exact Or.inl rfl
  | cons k v rest =>
    simp only [substFields]
    rcases hv : substValue d v p with ⟨res, p1⟩
    have h1 := substValue_reach d v p
    rw [hv] at h1
    rcases res with e | v1
    · exact h1
    · rcases hs : substFields d rest p1 with ⟨res2, p2⟩
      have h2 := substFields_reach d rest p1
      rw [hs] at h2
      rcases res2 with e2 | out <;> simp only [hs] <;> exact reach_trans d p p1 p2 h1 h2
end

/-- C7 amended: repeated substitution is stable from the second application
on.  The parameter map left by the first application is a fixed point -- a
second application with it changes the map no further, and a third
application returns exactly what the second did.  (The first and second
OUTPUTS can differ, per the counterexample: the first application may
overwrite a caller-supplied full_name_first / full_name_last while injecting
derived parameters into the shared map.) -/
theorem substitution_stable_after_first (d : DiscoverFn) (step : PyVal) (p : Params) :
    (substitute_step_placeholders d step (substitute_step_placeholders d step p).2).2 =
      (substitute_step_placeholders d step p).2
    ∧ substitute_step_placeholders d step
        (substitute_step_placeholders d step (substitute_step_placeholders d step p).2).2 =
      substitute_step_placeholders d step (substitute_step_placeholders d step p).2 := by
  have key : (substitute_step_placeholders d step
      (substitute_step_placeholders d step p).2).2 =
      (substitute_step_placeholders d step p).2 := by
    unfold substitute_step_placeholders
    rcases substValue_reach d step p with h1 | h1
    · rw [h1]
      exact h1
    · rcases substValue_reach d step (substValue d step p).2 with h2 | h2
      · exact h2
      · rw [h1, inject_idem] at h2
        rw [h1]
        exact h2
  refine ⟨key, ?_⟩
  rw [key]

/-- Discovery oracle that never finds a room page (blocks 1 of the injection
are no-ops with it). -/
def noDiscover : DiscoverFn := fun _ _ => Option.none

/-- A TYPE-like step value whose string is
"\x7b\x7bfull_name_first\x7d\x7d \x7b\x7bfull_name_last\x7d\x7d" (the two
placeholder tokens separated by a space; braces written via escapes). -/
def c7Step : PyVal :=
  PyVal.str "\x7b\x7bfull_name_first\x7d\x7d \x7b\x7bfull_name_last\x7d\x7d"

/-- A parameter map supplying full_name and a caller-chosen full_name_first,
but no full_name_last. -/
def c7Params : Params := [("full_name", "Alex Anteater"), ("full_name_first", "X")]

/-- C7 counterexample: substituting the same step twice with the same (shared,
mutated-in-place) parameter map yields different outputs.  Resolving
full_name_last during the first application triggers derived-parameter
injection, which overwrites the caller-supplied full_name_first ("X" becomes
"Alex"); the first output is "X Anteater", the second "Alex Anteater". -/
theorem substitution_not_idempotent :
    (substitute_step_placeholders noDiscover c7Step c7Params).1 =
      Except.ok (PyVal.str "X Anteater")
    ∧ (substitute_step_placeholders noDiscover c7Step
        (substitute_step_placeholders noDiscover c7Step c7Params).2).1 =
      Except.ok (PyVal.str "Alex Anteater") :=
  ⟨rfl, rfl⟩

/-- The placeholder keys of a string, in regex-sub scan order (same scanner as
`substCharsF`, same fuel discipline). -/
def placeholderKeysF : Nat → List Char → List String
  | _, [] => []
  | 0, _ :: _ => []
  | fuel + 1, c :: cs =>
    match parsePlaceholder (c :: cs) with
    | some (key, rest) => key :: placeholderKeysF fuel rest
    | Option.none => placeholderKeysF fuel cs

def stringPlaceholders (s : String) : List String := placeholderKeysF s.data.length s.data

mutual
/-- All placeholder keys a value's strings reference, in traversal order. -/
def valuePlaceholders : PyVal → List String
  | PyVal.str s => stringPlaceholders s
  | PyVal.list xs => listPlaceholders xs
  | PyVal.dict kvs => fieldsPlaceholders kvs
  | _ => []

def listPlaceholders : PyList → List String
  | PyList.nil => []
  | PyList.cons v rest => valuePlaceholders v ++ listPlaceholders rest

def fieldsPlaceholders : PyFields → List String
  | PyFields.nil => []
  | PyFields.cons _ v rest => valuePlaceholders v ++ fieldsPlaceholders rest
end

theorem parsePlaceholder_length (l : List Char) (k : String) (r : List Char)
    (h : parsePlaceholder l = some (k, r)) : r.length < l.length := by
  rcases l with _ | ⟨c1, l1⟩
  · simp [parsePlaceholder] at h
  rcases l1 with _ | ⟨c2, rest0⟩
  · simp [parsePlaceholder] at h
  by_cases hb : c1 = lbrace ∧ c2 = lbrace
  case neg => simp [parsePlaceholder, hb] at h
  simp only [parsePlaceholder, if_pos hb] at h
  rcases hdw : rest0.dropWhile isReSpace with _ | ⟨c0, rest2⟩
  · simp only [hdw] at h
    exact absurd h (by simp)
  simp only [hdw] at h
  by_cases hi : isIdentStart c0 = true
  case neg => simp [hi] at h
  simp only [if_pos hi] at h
  rcases hdw2 : (rest2.dropWhile isIdentChar).dropWhile isReSpace with _ | ⟨d1, l4⟩
  · simp only [hdw2] at h
    exact absurd h (by simp)
  rcases l4 with _ | ⟨d2, rest5⟩
  · simp only [hdw2] at h
    exact absurd h (by simp)
  simp only [hdw2] at h
  by_cases hb2 : d1 = rbrace ∧ d2 = rbrace
  case neg => simp [hb2] at h
  simp only [if_pos hb2, Option.some.injEq, Prod.mk.injEq] at h
  have hr : r = rest5 := h.2.symm
  have e1 : (rest0.dropWhile isReSpace).length ≤ rest0.length :=
    (List.dropWhile_suffix isReSpace).length_le
  rw [hdw] at e1
  have e2 : ((rest2.dropWhile isIdentChar).dropWhile isReSpace).length ≤
      (rest2.dropWhile isIdentChar).length := (List.dropWhile_suffix isReSpace).length_le
  have e3 : (rest2.dropWhile isIdentChar).length ≤ rest2.length :=
    (List.dropWhile_suffix isIdentChar).length_le
  rw [hdw2] at e2
  subst hr
  simp only [List.length_cons] at e1 e2 ⊢
  omega

theorem reach_inject_eq (d : DiscoverFn) (p q : Params) (h : Reach d p q) :
    inject_derived_params d q = inject_derived_params d p := by
  rcases h with h | h
  · rw [h]
  · rw [h, inject_idem]

theorem resolve_param_error_char (d : DiscoverFn) (key : String) (p : Params) (m : String)
    (h : (resolve_param d key p).1 = Except.error m) :
    m = missingMsg key ∧ lookupP (inject_derived_params d p) key = Option.none := by
  unfold resolve_param at h
  by_cases h0 : lookupP p key = Option.none
  · simp only [if_pos h0] at h
    rcases h2 : lookupP (inject_derived_params d p) key with _ | v
    · simp only [h2, Except.error.injEq] at h
      exact ⟨h.symm, rfl⟩
    · simp only [h2] at h
      exact absurd h (by simp)
  · simp only [if_neg h0] at h
    rcases h2 : lookupP p key with _ | v
    · exact absurd h2 h0
    · simp only [h2] at h
      exact absurd h (by simp)

theorem resolve_param_error_of_missing (d : DiscoverFn) (key : String) (p : Params)
    (h : lookupP (inject_derived_params d p) key = Option.none) :
    (resolve_param d key p).1 = Except.error (missingMsg key) := by
  have h0 : lookupP p key = Option.none := by
    rcases hx : lookupP p key with _ | v
    · rfl
    · have hs := inject_isSome d p key (by simp [hx])
      rw [h] at hs
      exact absurd hs (by simp)
  unfold resolve_param
  simp only [if_pos h0, h]

theorem resolve_param_ok_inject (d : DiscoverFn) (key : String) (p : Params) (v : String)
    (p1 : Params) (h : resolve_param d key p = (Except.ok v, p1)) :
    (lookupP (inject_derived_params d p) key).isSome := by
  unfold resolve_param at h
  by_cases h0 : lookupP p key = Option.none
  · simp only [if_pos h0] at h
    rcases h2 : lookupP (inject_derived_params d p) key with _ | w
    · simp only [h2] at h
      exact absurd h (by simp)
    · simp [h2]
  · rcases hx : lookupP p key with _ | w
    · exact absurd hx h0
    · exact inject_isSome d p key (by simp [hx])

theorem substCharsF_error (d : DiscoverFn) (fuel : Nat) (l : List Char) (p : Params)
    (m : String) (h : (substCharsF d fuel l p).1 = Except.error m) :
    ∃ k, m = missingMsg k ∧ k ∈ placeholderKeysF fuel l
      ∧ lookupP (inject_derived_params d p) k = Option.none := by
  induction fuel generalizing l p with
  | zero => cases l <;> simp [substCharsF] at h
  | succ fuel ih =>
    cases l with
    | nil => simp [substCharsF] at h
    | cons c cs =>
      rcases hp : parsePlaceholder (c :: cs) with _ | ⟨key, rest⟩
      · rcases hs : substCharsF d fuel cs p with ⟨res, p1⟩
        rcases res with e | out
        · simp only [substCharsF, hp, hs, Except.error.injEq] at h
          subst h
          obtain ⟨k, hk1, hk2, hk3⟩ := ih cs p (by rw [hs])
          refine ⟨k, hk1, ?_, hk3⟩
          simp only [placeholderKeysF, hp]
          exact hk2
        · simp only [substCharsF, hp, hs] at h
          exact absurd h (by simp)
      · rcases hr : resolve_param d key p with ⟨res, p1⟩
        rcases res with e | v
        · simp only [substCharsF, hp, hr, Except.error.injEq] at h
          subst h
          have he := resolve_param_error_char d key p e (by rw [hr])
          refine ⟨key, he.1, ?_, he.2⟩
          simp only [placeholderKeysF, hp]
          exact List.mem_cons_self _ _
        · rcases hs : substCharsF d fuel rest p1 with ⟨res2, p2⟩
          rcases res2 with e2 | out
          · simp only [substCharsF, hp, hr, hs, Except.error.injEq] at h
            subst h
            obtain ⟨k, hk1, hk2, hk3⟩ := ih rest p1 (by rw [hs])
            have hreach : Reach d p p1 := by
              have hq := resolve_param_reach d key p
              rw [hr] at hq
              exact hq
            refine ⟨k, hk1, ?_, ?_⟩
            · simp only [placeholderKeysF, hp]
              exact List.mem_cons_of_mem _ hk2
            · rw [← reach_inject_eq d p p1 hreach]
              exact hk3
          · simp only [substCharsF, hp, hr, hs] at h
            exact absurd h (by simp)

theorem substCharsF_complete (d : DiscoverFn) (fuel : Nat) (l : List Char) (p : Params)
    (k : String) (hl : l.length ≤ fuel) (hk : k ∈ placeholderKeysF fuel l)
    (hmiss : lookupP (inject_derived_params d p) k = Option.none) :
    ∃ m, (substCharsF d fuel l p).1 = Except.error m := by
  induction fuel generalizing l p with
  | zero =>
    cases l with
    | nil => simp [placeholderKeysF] at hk
    | cons c cs => simp at hl
  | succ fuel ih =>
    cases l with
    | nil => simp [placeholderKeysF] at hk
    | cons c cs =>
      rcases hp : parsePlaceholder (c :: cs) with _ | ⟨key, rest⟩
      · have hk2 : k ∈ placeholderKeysF fuel cs := by
          simp only [placeholderKeysF, hp] at hk
          exact hk
        have hlen : cs.length ≤ fuel := by
          simp only [List.length_cons] at hl
          omega
        obtain ⟨m, hm⟩ := ih cs p hlen hk2 hmiss
        rcases hs : substCharsF d fuel cs p with ⟨res, p1⟩
        rw [hs] at hm
        rcases res with e | out
        · refine ⟨m, ?_⟩
          simp only [substCharsF, hp, hs]
          simpa using hm
        · simp at hm
      · rcases hr : resolve_param d key p with ⟨res, p1⟩
        rcases res with e | v
        · refine ⟨e, ?_⟩
          simp only [substCharsF, hp, hr]
        · have hkey := resolve_param_ok_inject d key p v p1 hr
          have hne : k ≠ key := by
            intro hEq
            rw [← hEq, hmiss] at hkey
            exact absurd hkey (by simp)
          have hk2 : k ∈ placeholderKeysF fuel rest := by
            simp only [placeholderKeysF, hp] at hk
            rcases List.mem_cons.mp hk with hk | hk
            · exact absurd hk hne
            · exact hk
          have hreach : Reach d p p1 := by
            have hq := resolve_param_reach d key p
            rw [hr] at hq
            exact hq
          have hmiss1 : lookupP (inject_derived_params d p1) k = Option.none := by
            rw [reach_inject_eq d p p1 hreach]
            exact hmiss
          have hlen : rest.length ≤ fuel := by
            have hlt := parsePlaceholder_length (c :: cs) key rest hp
            simp only [List.length_cons] at hlt hl
            omega
          obtain ⟨m, hm⟩ := ih rest p1 hlen hk2 hmiss1
          rcases hs : substCharsF d fuel rest p1 with ⟨res2, p2⟩
          rw [hs] at hm
          rcases res2 with e2 | out
          · refine ⟨m, ?_⟩
            simp only [substCharsF, hp, hr, hs]
            simpa using hm
          · simp at hm

theorem substString_error (d : DiscoverFn) (s : String) (p : Params) (m : String)
    (h : (substString d s p).1 = Except.error m) :
    ∃ k, m = missingMsg k ∧ k ∈ stringPlaceholders s
      ∧ lookupP (inject_derived_params d p) k = Option.none := by
  rcases hs : substCharsF d s.data.length s.data p with ⟨res, p1⟩
  rcases res with e | out
  · simp only [substString, hs, Except.error.injEq] at h
    subst h
    exact substCharsF_error d s.data.length s.data p e (by rw [hs])
  · simp only [substString, hs] at h
    exact absurd h (by simp)

theorem substString_complete (d : DiscoverFn) (s : String) (p : Params) (k : String)
    (hk : k ∈ stringPlaceholders s)
    (hmiss : lookupP (inject_derived_params d p) k = Option.none) :
    ∃ m, (substString d s p).1 = Except.error m := by
  obtain ⟨m, hm⟩ := substCharsF_complete d s.data.length s.data p k le_rfl hk hmiss
  rcases hs : substCharsF d s.data.length s.data p with ⟨res, p1⟩
  rw [hs] at hm
  rcases res with e | out
  · refine ⟨m, ?_⟩
    simp only [substString, hs]
    simpa using hm
  · simp at hm

mutual
theorem substValue_error (d : DiscoverFn) (v : PyVal) (p : Params) (m : String)
    (h : (substValue d v p).1 = Except.error m) :
    ∃ k, m = missingMsg k ∧ k ∈ valuePlaceholders v
      ∧ lookupP (inject_derived_params d p) k = Option.none := by
  cases v with
  | str s =>
    rcases hs : substString d s p with ⟨res, p1⟩
    rcases res with e | out
    · simp only [substValue, hs, Except.error.injEq] at h
      subst h
      exact substString_error d s p e (by rw [hs])
    · simp only [substValue, hs] at h
      exact absurd h (by simp)
  | dict kvs =>
    rcases hs : substFields d kvs p with ⟨res, p1⟩
    rcases res with e | out
    · simp only [substValue, hs, Except.error.injEq] at h
      subst h
      exact substFields_error d kvs p e (by rw [hs])
    · simp only [substValue, hs] at h
      exact absurd h (by simp)
  | list xs =>
    rcases hs : substList d xs p with ⟨res, p1⟩
    rcases res with e | out
    · simp only [substValue, hs, Except.error.injEq] at h
      subst h
      exact substList_error d xs p e (by rw [hs])
    · simp only [substValue, hs] at h
      exact absurd h (by simp)
  | num n => simp [substValue] at h
  | bool b => simp [substValue] at h
  | none => simp [substValue] at h

theorem substList_error (d : DiscoverFn) (vs : PyList) (p : Params) (m : String)
    (h : (substList d vs p).1 = Except.error m) :
    ∃ k, m = missingMsg k ∧ k ∈ listPlaceholders vs
      ∧ lookupP (inject_derived_params d p) k = Option.none := by
  cases vs with
  | nil => simp [substList] at h
  | cons v rest =>
    rcases hv : substValue d v p with ⟨res, p1⟩
    rcases res with e | v1
    · simp only [substList, hv, Except.error.injEq] at h
      subst h
      obtain ⟨k, hk1, hk2, hk3⟩ := substValue_error d v p e (by rw [hv])
      exact ⟨k, hk1, by simp [listPlaceholders, hk2], hk3⟩
    · rcases hs : substList d rest p1 with ⟨res2, p2⟩
      rcases res2 with e2 | out
      · simp only [substList, hv, hs, Except.error.injEq] at h
        subst h
        obtain ⟨k, hk1, hk2, hk3⟩ := substList_error d rest p1 e2 (by rw [hs])
        have hreach : Reach d p p1 := by
          have hq := substValue_reach d v p
          rw [hv] at hq
          exact hq
        refine ⟨k, hk1, by simp [listPlaceholders, hk2], ?_⟩
        rw [← reach_inject_eq d p p1 hreach]
        exact hk3
      · simp only [substList, hv, hs] at h
        exact absurd h (by simp)

theorem substFields_error (d : DiscoverFn) (kvs : PyFields) (p : Params) (m : String)
    (h : (substFields d kvs p).1 = Except.error m) :
    ∃ k, m = missingMsg k ∧ k ∈ fieldsPlaceholders kvs
      ∧ lookupP (inject_derived_params d p) k = Option.none := by
  cases kvs with
  | nil => simp [substFields] at h
  | cons f v rest =>
    rcases hv : substValue d v p with ⟨res, p1⟩
    rcases res with e | v1
    · simp only [substFields, hv, Except.error.injEq] at h
      subst h
      obtain ⟨k, hk1, hk2, hk3⟩ := substValue_error d v p e (by rw [hv])
      exact ⟨k, hk1, by simp [fieldsPlaceholders, hk2], hk3⟩
    · rcases hs : substFields d rest p1 with ⟨res2, p2⟩
      rcases res2 with e2 | out
      · simp only [substFields, hv, hs, Except.error.injEq] at h
        subst h
        obtain ⟨k, hk1, hk2, hk3⟩ := substFields_error d rest p1 e2 (by rw [hs])
        have hreach : Reach d p p1 := by
          have hq := substValue_reach d v p
          rw [hv] at hq
          exact hq
        refine ⟨k, hk1, by simp [fieldsPlaceholders, hk2], ?_⟩
        rw [← reach_inject_eq d p p1 hreach]
        exact hk3
      · simp only [substFields, hv, hs] at h
        exact absurd h (by simp)
end

mutual
theorem substValue_complete (d : DiscoverFn) (v : PyVal) (p : Params) (k : String)
    (hk : k ∈ valuePlaceholders v)
    (hmiss : lookupP (inject_derived_params d p) k = Option.none) :
    ∃ m, (substValue d v p).1 = Except.error m := by
  cases v with
  | str s =>
    obtain ⟨m, hm⟩ := substString_complete d s p k hk hmiss
    rcases hs : substString d s p with ⟨res, p1⟩
    rw [hs] at hm
    rcases res with e | out
    · exact ⟨m, by simp only [substValue, hs]; simpa using hm⟩
    · simp at hm
  | dict kvs =>
    obtain ⟨m, hm⟩ := substFields_complete d kvs p k hk hmiss
    rcases hs : substFields d kvs p with ⟨res, p1⟩
    rw [hs] at hm
    rcases res with e | out
    · exact ⟨m, by simp only [substValue, hs]; simpa using hm⟩
    · simp at hm
  | list xs =>
    obtain ⟨m, hm⟩ := substList_complete d xs p k hk hmiss
    rcases hs : substList d xs p with ⟨res, p1⟩
    rw [hs] at hm
    rcases res with e | out
    · exact ⟨m, by simp only [substValue, hs]; simpa using hm⟩
    · simp at hm
  | num n => simp [valuePlaceholders] at hk
  | bool b => simp [valuePlaceholders] at hk
  | none => simp [valuePlaceholders] at hk

theorem substList_complete (d : DiscoverFn) (vs : PyList) (p : Params) (k : String)
    (hk : k ∈ listPlaceholders vs)
    (hmiss : lookupP (inject_derived_params d p) k = Option.none) :
    ∃ m, (substList d vs p).1 = Except.error m := by
  cases vs with
  | nil => simp [listPlaceholders] at hk
  | cons v rest =>
    rcases hv : substValue d v p with ⟨res, p1⟩
    rcases res with e | v1
    · exact ⟨e, by simp only [substList, hv]⟩
    · have hknot : k ∉ valuePlaceholders v := by
        intro hin
        obtain ⟨m, hm⟩ := substValue_complete d v p k hin hmiss
        rw [hv] at hm
        simp at hm
      have hk2 : k ∈ listPlaceholders rest := by
        simp only [listPlaceholders, List.mem_append] at hk
        rcases hk with hk | hk
        · exact absurd hk hknot
        · exact hk
      have hreach : Reach d p p1 := by
        have hq := substValue_reach d v p
        rw [hv] at hq
        exact hq
      have hmiss1 : lookupP (inject_derived_params d p1) k = Option.none := by
        rw [reach_inject_eq d p p1 hreach]
        exact hmiss
      obtain ⟨m, hm⟩ := substList_complete d rest p1 k hk2 hmiss1
      rcases hs : substList d rest p1 with ⟨res2, p2⟩
      rw [hs] at hm
      rcases res2 with e2 | out
      · exact ⟨m, by simp only [substList, hv, hs]; simpa using hm⟩
      · simp at hm

theorem substFields_complete (d : DiscoverFn) (kvs : PyFields) (p : Params) (k : String)
    (hk : k ∈ fieldsPlaceholders kvs)
    (hmiss : lookupP (inject_derived_params d p) k = Option.none) :
    ∃ m, (substFields d kvs p).1 = Except.error m := by
  cases kvs with
  | nil => simp [fieldsPlaceholders] at hk
  | cons f v rest =>
    rcases hv : substValue d v p with ⟨res, p1⟩
    rcases res with e | v1
    · exact ⟨e, by simp only [substFields, hv]⟩
    · have hknot : k ∉ valuePlaceholders v := by
        intro hin
        obtain ⟨m, hm⟩ := substValue_complete d v p k hin hmiss
        rw [hv] at hm
        simp at hm
      have hk2 : k ∈ fieldsPlaceholders rest := by
        simp only [fieldsPlaceholders, List.mem_append] at hk
        rcases hk with hk | hk
        · exact absurd hk hknot
        · exact hk
      have hreach : Reach d p p1 := by
        have hq := substValue_reach d v p
        rw [hv] at hq
        exact hq
      have hmiss1 : lookupP (inject_derived_params d p1) k = Option.none := by
        rw [reach_inject_eq d p p1 hreach]
        exact hmiss
      obtain ⟨m, hm⟩ := substFields_complete d rest p1 k hk2 hmiss1
      rcases hs : substFields d rest p1 with ⟨res2, p2⟩
      rw [hs] at hm
      rcases res2 with e2 | out
      · exact ⟨m, by simp only [substFields, hv, hs]; simpa using hm⟩
      · simp at hm
end

/-- One observable store/artifact effect of `WorkflowRunner.run`
(selenium_runner.py): an `update_run` write of a status and `current_step`
(each `_set_status` call pairs such a write with an `add_log` entry), or a
screenshot file saved into the per-run artifacts directory. -/
inductive RunEvent where
  | statusWrite (status : RunStatus) (current_step : Nat)
  | shot (filename : String)
deriving DecidableEq

/-- Oracle for the non-deterministic environment of `WorkflowRunner.run`:
`execStep i resolved` is `_execute_step` on the substituted step at index `i`,
returning the list of artifact filenames the step execution itself saves into
the per-run artifacts directory, in order -- a SCREENSHOT action saves its
`step.filename` via `_take_screenshot(step.filename)` -- paired with the
action-result message or the text of the exception the step raises (the
filenames cover saves that happened before an exception escaped); `authAfter
i` is `_is_uci_auth_page()` observed after step `i`; `authCompletes i` is
whether the `_wait_for_auth_completion` poll loop observes the auth page
going away before its timeout; `pageContext` is `_page_debug_context()`;
`discover` is the room-URL discovery call of `_inject_derived_params`.  The
loop-level `_take_screenshot` calls and the auth-page check are modelled as
non-raising (the driver is live for the whole loop). -/
structure RunnerWorld where
  execStep : Nat → PyVal → List String × Except String String
  authAfter : Nat → Bool
  authCompletes : Nat → Bool
  pageContext : String
  discover : DiscoverFn

/-- The screenshot events of the artifacts a step execution itself saves. -/
def artShots (fs : List String) : List RunEvent := fs.map RunEvent.shot

/-- The failure message composed in the `except` branch of
`WorkflowRunner.run`. -/
def failMsg (exc context : String) : String :=
  if containsSub exc "Context:" then "Workflow failed: " ++ exc
  else "Workflow failed: " ++ exc ++ ". Context: " ++ context

/-- `f"step_\x7bstep_index\x7d.png"` -- the per-step success screenshot name
(unpadded decimal index). -/
def stepShotName (i : Nat) : String := "step_" ++ Nat.repr i ++ ".png"

/-- `f"step_\x7bstep_index\x7d_auth.png"` -- the auth-pause screenshot name. -/
def authShotName (i : Nat) : String := "step_" ++ Nat.repr i ++ "_auth.png"

/-- The `for step_index in range(start_step, len(workflow.steps))` loop of
`WorkflowRunner.run`, applied to the remaining steps with `i` the index of the
first of them; returns the events emitted from the loop entry onward together
with the message of the FAILED log entry when the run raised (None when it
succeeded or paused for auth).

Faithfulness notes, keyed to the source:
- each iteration first writes RUNNING/`i` ("Starting step"), substitutes,
  executes, saves `step_i.png`, then writes RUNNING/`i+1` ("Completed step");
- on an exception (a KeyError from substitution, or whatever `_execute_step`
  raises) the handler saves `error.png` and writes FAILED with
  `get_run(run_id).current_step`, which at that point is `i`: the run record
  exists (the loop has written to it) and its last write was the RUNNING/`i`
  "Starting step" write;
- `_execute_step` may itself save artifacts (the SCREENSHOT action saves
  `step.filename` into the same per-run directory); those saves precede the
  loop-level `step_i.png` shot, and on a raising step they precede
  `error.png`;
- when the auth page is detected, `_wait_for_auth_completion` saves
  `step_i_auth.png` and writes WAITING_FOR_AUTH/`i+1`; repeated
  "Still waiting" progress writes carry the same status and step and are
  collapsed into that first write; on success it writes RUNNING/`i+1` and the
  loop continues, on timeout it saves `error.png`
  (`_safe_error_screenshot`), writes WAITING_FOR_AUTH/`i+1` and `run`
  returns;
- after the loop, SUCCEEDED/`len(steps)` is written (the index the loop left
  off at). -/
def runnerLoop (w : RunnerWorld) : List PyVal → Nat → Params → List RunEvent × Option String
  | [], i, _ => ([RunEvent.statusWrite RunStatus.succeeded i], Option.none)
  | step :: rest, i, p =>
    match substitute_step_placeholders w.discover step p with
    | (Except.error e, _) =>
      ([RunEvent.statusWrite RunStatus.running i,
        RunEvent.shot "error.png",
        RunEvent.statusWrite RunStatus.failed i],
       some (failMsg e w.pageContext))
    | (Except.ok resolved, p1) =>
      match w.execStep i resolved with
      | (arts, Except.error e) =>
        (RunEvent.statusWrite RunStatus.running i ::
          (artShots arts ++
            [RunEvent.shot "error.png",
             RunEvent.statusWrite RunStatus.failed i]),
         some (failMsg e w.pageContext))
      | (arts, Except.ok _) =>
        if w.authAfter i then
          if w.authCompletes i then
            let r := runnerLoop w rest (i + 1) p1
            (RunEvent.statusWrite RunStatus.running i ::
              (artShots arts ++
                RunEvent.shot (stepShotName i) ::
                RunEvent.statusWrite RunStatus.running (i + 1) ::
                RunEvent.shot (authShotName i) ::
                RunEvent.statusWrite RunStatus.waiting_for_auth (i + 1) ::
                RunEvent.statusWrite RunStatus.running (i + 1) :: r.1),
             r.2)
          else
            (RunEvent.statusWrite RunStatus.running i ::
              (artShots arts ++
                [RunEvent.shot (stepShotName i),
                 RunEvent.statusWrite RunStatus.running (i + 1),
                 RunEvent.shot (authShotName i),
                 RunEvent.statusWrite RunStatus.waiting_for_auth (i + 1),
                 RunEvent.shot "error.png",
                 RunEvent.statusWrite RunStatus.waiting_for_auth (i + 1)]),
             Option.none)
        else
          let r := runnerLoop w rest (i + 1) p1
          (RunEvent.statusWrite RunStatus.running i ::
            (artShots arts ++
              RunEvent.shot (stepShotName i) ::
              RunEvent.statusWrite RunStatus.running (i + 1) :: r.1),
           r.2)

/-- `WorkflowRunner.run` from a checkpoint: the "Workflow run started"
RUNNING/`start_step` write, then the step loop.  (When the run record does not
yet exist, `run` first creates it QUEUED/0 via `save_run`; that path is not
part of the event stream modelled here, which starts at the first
`_set_status`.) -/
def runner_run (w : RunnerWorld) (steps : List PyVal) (start : Nat) (p : Params) :
    List RunEvent × Option String :=
  let r := runnerLoop w (steps.drop start) start p
  (RunEvent.statusWrite RunStatus.running start :: r.1, r.2)

/-- The `current_step` values of the `update_run` writes, in order. -/
def statusSteps (evs : List RunEvent) : List Nat :=
  evs.filterMap (fun e =>
    match e with
    | RunEvent.statusWrite _ cs => some cs
    | RunEvent.shot _ => Option.none)

/-- The screenshot filenames saved, in order. -/
def shots (evs : List RunEvent) : List String :=
  evs.filterMap (fun e =>
    match e with
    | RunEvent.statusWrite _ _ => Option.none
    | RunEvent.shot f => some f)

@[simp] theorem statusSteps_nil : statusSteps [] = [] := rfl

@[simp] theorem statusSteps_write (s : RunStatus) (c : Nat) (evs : List RunEvent) :
    statusSteps (RunEvent.statusWrite s c :: evs) = c :: statusSteps evs := rfl

@[simp] theorem statusSteps_shot (f : String) (evs : List RunEvent) :
    statusSteps (RunEvent.shot f :: evs) = statusSteps evs := rfl

@[simp] theorem shots_nil : shots [] = [] := rfl

@[simp] theorem shots_write (s : RunStatus) (c : Nat) (evs : List RunEvent) :
    shots (RunEvent.statusWrite s c :: evs) = shots evs := rfl

@[simp] theorem shots_shot (f : String) (evs : List RunEvent) :
    shots (RunEvent.shot f :: evs) = f :: shots evs := rfl

@[simp] theorem statusSteps_artShots (fs : List String) (evs : List RunEvent) :
    statusSteps (artShots fs ++ evs) = statusSteps evs := by
  induction fs with
  | nil => rfl
  | cons f rest ih => simpa [artShots] using ih

@[simp] theorem shots_artShots (fs : List String) (evs : List RunEvent) :
    shots (artShots fs ++ evs) = fs ++ shots evs := by
  induction fs with
  | nil => rfl
  | cons f rest ih => simpa [artShots] using ih

theorem chain_le_cons (a b : Nat) (l : List Nat) (hab : a ≤ b)
    (h : List.Chain' (fun x y => x ≤ y) (b :: l)) :
    List.Chain' (fun x y => x ≤ y) (a :: b :: l) :=
  (List.chain'_cons).mpr ⟨hab, h⟩

theorem runnerLoop_chain (w : RunnerWorld) (steps : List PyVal) :
    ∀ (i : Nat) (p : Params),
      List.Chain' (fun a b => a ≤ b) (i :: statusSteps (runnerLoop w steps i p).1) := by
  induction steps with
  | nil =>
    intro i p
    simp [runnerLoop]
  | cons step rest ih =>
    intro i p
    rcases hsub : substitute_step_placeholders w.discover step p with ⟨res, p1⟩
    rcases res with e | resolved
    · simp only [runnerLoop, hsub, statusSteps_write, statusSteps_shot, statusSteps_nil]
      simp [List.chain'_cons]
    · rcases hexec : w.execStep i resolved with ⟨arts, res2⟩
      rcases res2 with e | msg
      · have hev : (runnerLoop w (step :: rest) i p).1 =
            RunEvent.statusWrite RunStatus.running i ::
              (artShots arts ++
                [RunEvent.shot "error.png",
                 RunEvent.statusWrite RunStatus.failed i]) := by
          simp [runnerLoop, hsub, hexec]
        rw [hev]
        simp only [statusSteps_write, statusSteps_artShots, statusSteps_shot,
          statusSteps_nil]
        simp [List.chain'_cons]
      · by_cases hauth : w.authAfter i = true
        · by_cases hcomp : w.authCompletes i = true
          · have hev : (runnerLoop w (step :: rest) i p).1 =
                RunEvent.statusWrite RunStatus.running i ::
                  (artShots arts ++
                    RunEvent.shot (stepShotName i) ::
                    RunEvent.statusWrite RunStatus.running (i + 1) ::
                    RunEvent.shot (authShotName i) ::
                    RunEvent.statusWrite RunStatus.waiting_for_auth (i + 1) ::
                    RunEvent.statusWrite RunStatus.running (i + 1) ::
                    (runnerLoop w rest (i + 1) p1).1) := by
              simp [runnerLoop, hsub, hexec, hauth, hcomp]
            rw [hev]
            simp only [statusSteps_write, statusSteps_artShots, statusSteps_shot]
            exact chain_le_cons _ _ _ (le_refl i)
              (chain_le_cons _ _ _ (Nat.le_succ i)
                (chain_le_cons _ _ _ (le_refl (i + 1))
                  (chain_le_cons _ _ _ (le_refl (i + 1)) (ih (i + 1) p1))))
          · have hev : (runnerLoop w (step :: rest) i p).1 =
                RunEvent.statusWrite RunStatus.running i ::
                  (artShots arts ++
                    [RunEvent.shot (stepShotName i),
                     RunEvent.statusWrite RunStatus.running (i + 1),
                     RunEvent.shot (authShotName i),
                     RunEvent.statusWrite RunStatus.waiting_for_auth (i + 1),
                     RunEvent.shot "error.png",
                     RunEvent.statusWrite RunStatus.waiting_for_auth (i + 1)]) := by
              simp [runnerLoop, hsub, hexec, hauth, hcomp]
            rw [hev]
            simp only [statusSteps_write, statusSteps_artShots, statusSteps_shot,
              statusSteps_nil]
            simp [List.chain'_cons]
        · have hev : (runnerLoop w (step :: rest) i p).1 =
              RunEvent.statusWrite RunStatus.running i ::
                (artShots arts ++
                  RunEvent.shot (stepShotName i) ::
                  RunEvent.statusWrite RunStatus.running (i + 1) ::
                  (runnerLoop w rest (i + 1) p1).1) := by
            simp [runnerLoop, hsub, hexec, hauth]
          rw [hev]
          simp only [statusSteps_write, statusSteps_artShots, statusSteps_shot]
          exact chain_le_cons _ _ _ (le_refl i)
            (chain_le_cons _ _ _ (Nat.le_succ i) (ih (i + 1) p1))

/-- C5: across one execution of `WorkflowRunner.run` from any checkpoint, the
`current_step` values written to the run record are non-decreasing (each write
is greater than or equal to the previous one), and on the continue endpoint
for a WAITING_FOR_AUTH run with its parameters retained, the step written back
is exactly the stored `current_step` when the in-memory runner is still
present, and exactly one less (floored at zero, `max(0, current_step - 1)`)
when the in-memory session was lost -- the only decreasing write. -/
theorem current_step_monotonic (w : RunnerWorld) (steps : List PyVal) (start : Nat)
    (p : Params) (runs : Store) (run_params active_runners : List String)
    (run_id : String) (run : RunState)
    (h1 : lookupStore runs run_id = some run)
    (h2 : run.status = RunStatus.waiting_for_auth)
    (h3 : run_id ∈ run_params) :
    List.Chain' (fun a b => a ≤ b) (statusSteps (runner_run w steps start p).1)
    ∧ (run_id ∈ active_runners →
        ∃ runs2, continue_run runs run_params active_runners run_id =
          Except.ok (runs2, run.current_step))
    ∧ (run_id ∉ active_runners →
        ∃ runs2, continue_run runs run_params active_runners run_id =
          Except.ok (runs2, run.current_step - 1)) := by
  refine ⟨?_, ?_, ?_⟩
  · have h := runnerLoop_chain w (steps.drop start) start p
    simpa [runner_run] using h
  · intro hmem
    refine ⟨(update_run runs run_id (some RunStatus.queued) (some run.current_step)
      Option.none).2, ?_⟩
    unfold continue_run
    simp only [h1]
    rw [if_neg (by simp [h2]), if_neg (by simp [h3]), if_pos hmem]
  · intro hmem
    refine ⟨(update_run runs run_id (some RunStatus.queued) (some (run.current_step - 1))
      Option.none).2, ?_⟩
    unfold continue_run
    simp only [h1]
    rw [if_neg (by simp [h2]), if_neg (by simp [h3]), if_neg hmem, Nat.zero_max]

def c5World : RunnerWorld :=
  { execStep := fun _ _ => ([], Except.ok "clicked")
    authAfter := fun _ => false
    authCompletes := fun _ => false
    pageContext := "url=about:blank title="
    discover := noDiscover }

def c5Run : RunState :=
  { run_id := "r5"
    workflow_id := "w5"
    status := RunStatus.waiting_for_auth
    current_step := 2
    total_steps := 3
    logs := [] }

theorem current_step_monotonic_witness :
    (lookupStore [("r5", c5Run)] "r5" = some c5Run
     ∧ c5Run.status = RunStatus.waiting_for_auth
     ∧ "r5" ∈ ["r5"])
    ∧ (List.Chain' (fun a b => a ≤ b)
         (statusSteps (runner_run c5World [PyVal.none] 0 []).1)
       ∧ ("r5" ∈ ([] : List String) →
           ∃ runs2, continue_run [("r5", c5Run)] ["r5"] [] "r5" =
             Except.ok (runs2, c5Run.current_step))
       ∧ ("r5" ∉ ([] : List String) →
           ∃ runs2, continue_run [("r5", c5Run)] ["r5"] [] "r5" =
             Except.ok (runs2, c5Run.current_step - 1))) :=
  ⟨⟨rfl, rfl, by decide⟩,
   current_step_monotonic c5World [PyVal.none] 0 [] [("r5", c5Run)] ["r5"] [] "r5" c5Run
     rfl rfl (by decide)⟩

theorem containsSub_append_mid (x m y : String) :
    containsSub (x ++ m ++ y) m = true := by
  unfold containsSub
  rw [List.any_eq_true]
  refine ⟨m.data ++ y.data, ?_, ?_⟩
  · rw [List.mem_tails]
    have hdata : (x ++ m ++ y).data = x.data ++ (m.data ++ y.data) := by
      show (x.data ++ m.data) ++ y.data = x.data ++ (m.data ++ y.data)
      exact List.append_assoc _ _ _
    rw [hdata]
    exact List.suffix_append _ _
  · exact List.isPrefixOf_iff_prefix.mpr (List.prefix_append _ _)

theorem containsSub_failMsg (e ctx : String) :
    containsSub (failMsg e ctx) e = true := by
  unfold failMsg
  by_cases hc : containsSub e "Context:" = true
  · rw [if_pos hc]
    have h := containsSub_append_mid "Workflow failed: " e ""
    simpa using h
  · rw [if_neg hc]
    have h := containsSub_append_mid "Workflow failed: " e (". Context: " ++ ctx)
    simpa [String.append_assoc] using h

/-- C6 amended: when a step holds a placeholder `\x7b\x7bname\x7d\x7d` whose
name is missing not only from the run parameter map but also from the map
after `_inject_derived_params` (the injection can itself supply
`room_page_url`, `room_id`, `full_name_first` and `full_name_last`, see the
counterexample), substitution of that step raises rather than substituting
anything (in particular never an empty string): it returns the KeyError
message `Missing required workflow parameter: <key>` for some genuinely
missing placeholder of the step, and the runner loop at that step writes
RUNNING, saves `error.png`, terminates the run with status FAILED at that
step index, and logs a failure message containing the missing-parameter
text. -/
theorem parameter_missing_fails_run (w : RunnerWorld) (step : PyVal) (rest : List PyVal)
    (i : Nat) (p : Params) (k : String)
    (hk : k ∈ valuePlaceholders step)
    (hmiss : lookupP (inject_derived_params w.discover p) k = Option.none) :
    ∃ m,
      (substitute_step_placeholders w.discover step p).1 = Except.error m
      ∧ (∃ k2, m = missingMsg k2 ∧ k2 ∈ valuePlaceholders step
          ∧ lookupP p k2 = Option.none
          ∧ lookupP (inject_derived_params w.discover p) k2 = Option.none)
      ∧ runnerLoop w (step :: rest) i p =
          ([RunEvent.statusWrite RunStatus.running i, RunEvent.shot "error.png",
            RunEvent.statusWrite RunStatus.failed i],
           some (failMsg m w.pageContext))
      ∧ containsSub (failMsg m w.pageContext) m = true := by
  obtain ⟨m, hm⟩ := substValue_complete w.discover step p k hk hmiss
  refine ⟨m, hm, ?_, ?_, containsSub_failMsg m w.pageContext⟩
  · obtain ⟨k2, hk1, hk2, hk3⟩ := substValue_error w.discover step p m hm
    refine ⟨k2, hk1, hk2, ?_, hk3⟩
    rcases hx : lookupP p k2 with _ | v
    · rfl
    · have hs := inject_isSome w.discover p k2 (by simp [hx])
      rw [hk3] at hs
      exact absurd hs (by simp)
  · have hm2 : (substitute_step_placeholders w.discover step p).1 = Except.error m := hm
    rcases hs : substitute_step_placeholders w.discover step p with ⟨res, p1⟩
    rw [hs] at hm2
    simp only at hm2
    subst hm2
    simp only [runnerLoop, hs]

def c6MissStep : PyVal := PyVal.str "\x7b\x7bquiz_title\x7d\x7d"

theorem parameter_missing_fails_run_witness :
    ("quiz_title" ∈ valuePlaceholders c6MissStep
     ∧ lookupP (inject_derived_params c5World.discover []) "quiz_title" = Option.none)
    ∧ (∃ m,
        (substitute_step_placeholders c5World.discover c6MissStep []).1 = Except.error m
        ∧ (∃ k2, m = missingMsg k2 ∧ k2 ∈ valuePlaceholders c6MissStep
            ∧ lookupP [] k2 = Option.none
            ∧ lookupP (inject_derived_params c5World.discover []) k2 = Option.none)
        ∧ runnerLoop c5World [c6MissStep] 0 [] =
            ([RunEvent.statusWrite RunStatus.running 0, RunEvent.shot "error.png",
              RunEvent.statusWrite RunStatus.failed 0],
             some (failMsg m c5World.pageContext))
        ∧ containsSub (failMsg m c5World.pageContext) m = true) :=
  ⟨⟨by decide, rfl⟩,
   parameter_missing_fails_run c5World c6MissStep [] 0 [] "quiz_title" (by decide) rfl⟩

def c6Step : PyVal := PyVal.str "\x7b\x7broom_id\x7d\x7d"

def c6Params : Params := [("room_keyword", "Room 2106")]

/-- C6 counterexample: a step whose string holds the placeholder
`\x7b\x7broom_id\x7d\x7d` with `room_id` absent from the run parameter map
does NOT raise and does not fail the run: `_resolve_param` first calls
`_inject_derived_params`, which derives `room_id = "2106"` from the supplied
`room_keyword`, so substitution succeeds and the one-step run completes with
SUCCEEDED. -/
theorem missing_param_injected :
    lookupP c6Params "room_id" = Option.none
    ∧ (substitute_step_placeholders noDiscover c6Step c6Params).1 =
        Except.ok (PyVal.str "2106")
    ∧ runnerLoop c5World [c6Step] 0 c6Params =
        ([RunEvent.statusWrite RunStatus.running 0,
          RunEvent.shot (stepShotName 0),
          RunEvent.statusWrite RunStatus.running 1,
          RunEvent.statusWrite RunStatus.succeeded 1], Option.none) :=
  ⟨rfl, rfl, rfl⟩

def c8FailWorld : RunnerWorld :=
  { execStep := fun _ _ => ([], Except.error "element not found")
    authAfter := fun _ => false
    authCompletes := fun _ => false
    pageContext := "url=about:blank title="
    discover := noDiscover }

def c8AuthWorld : RunnerWorld :=
  { execStep := fun _ _ => ([], Except.ok "navigated")
    authAfter := fun _ => true
    authCompletes := fun _ => false
    pageContext := "url=about:blank title="
    discover := noDiscover }

/-- A world whose single step is a SCREENSHOT action: `_execute_step` itself
saves the caller-chosen `step.filename` before the loop saves its own
`step_0.png`. -/
def c8SnapWorld : RunnerWorld :=
  { execStep := fun _ _ => (["roster.png"], Except.ok "screenshot saved to roster.png")
    authAfter := fun _ => false
    authCompletes := fun _ => false
    pageContext := "url=about:blank title="
    discover := noDiscover }

/-- C8 counterexample: the screenshot names the runner writes are NOT of the
form `step_<3-digit-index>[_FAILED|_auth].png`.  A successful one-step run
saves exactly `step_0.png` -- an unpadded index and not `step_000.png`; a run
whose step raises saves no per-step screenshot at all (no `_FAILED` name
exists anywhere in selenium_runner.py), only `error.png`; an auth pause saves
the unpadded `step_0_auth.png`; and a SCREENSHOT-action step saves its own
`step.filename` ahead of the loop shot, so the artifact list is not even
confined to the claimed name family.  (The 3-digit `_FAILED`-suffixed names
appear only in the separate legacy executor workflow_executor.py.) -/
theorem screenshot_names_counterexample :
    shots (runner_run c5World [PyVal.none] 0 []).1 = ["step_0.png"]
    ∧ ((shots (runner_run c5World [PyVal.none] 0 []).1).contains "step_000.png" = false)
    ∧ shots (runner_run c8FailWorld [PyVal.none] 0 []).1 = ["error.png"]
    ∧ ((shots (runner_run c8FailWorld [PyVal.none] 0 []).1).contains
        "step_000_FAILED.png" = false)
    ∧ ((shots (runner_run c8FailWorld [PyVal.none] 0 []).1).contains
        "step_0_FAILED.png" = false)
    ∧ shots (runner_run c8AuthWorld [PyVal.none] 0 []).1 =
        ["step_0.png", "step_0_auth.png", "error.png"]
    ∧ shots (runner_run c8SnapWorld [PyVal.none] 0 []).1 = ["roster.png", "step_0.png"] :=
  ⟨rfl, by decide, rfl, by decide, by decide, rfl, rfl⟩

/-- The artifact stream of a successfully completed prefix of steps: for each
step index, first whatever artifacts that step execution saved itself, then
the loop's `step_<index>.png` shot. -/
def interleaveShots : List (List String) → List Nat → List String
  | a :: rest, j :: js => a ++ stepShotName j :: interleaveShots rest js
  | _, _ => []

theorem runnerLoop_shots_decomp (w : RunnerWorld) (steps : List PyVal)
    (hAuth : ∀ j, w.authAfter j = false) :
    ∀ (i : Nat) (p : Params),
      ∃ k, k ≤ steps.length ∧
      ∃ pre : List (List String), pre.length = k ∧
        (((runnerLoop w steps i p).2 = Option.none ∧ k = steps.length
            ∧ shots (runnerLoop w steps i p).1 = interleaveShots pre (List.range' i k))
         ∨ ((runnerLoop w steps i p).2.isSome = true ∧ k < steps.length
            ∧ ∃ afail, shots (runnerLoop w steps i p).1 =
                interleaveShots pre (List.range' i k) ++ afail ++ ["error.png"])) := by
  induction steps with
  | nil =>
    intro i p
    exact ⟨0, le_refl 0, [], rfl, Or.inl ⟨rfl, rfl, by simp [runnerLoop, interleaveShots]⟩⟩
  | cons step rest ih =>
    intro i p
    rcases hsub : substitute_step_placeholders w.discover step p with ⟨res, p1⟩
    rcases res with e | resolved
    · refine ⟨0, Nat.zero_le _, [], rfl, Or.inr ⟨?_, by simp, [], ?_⟩⟩
      · simp [runnerLoop, hsub]
      · have hev : (runnerLoop w (step :: rest) i p).1 =
            [RunEvent.statusWrite RunStatus.running i, RunEvent.shot "error.png",
             RunEvent.statusWrite RunStatus.failed i] := by
          simp [runnerLoop, hsub]
        rw [hev]
        simp [interleaveShots]
    · rcases hexec : w.execStep i resolved with ⟨arts, res2⟩
      rcases res2 with e | msg
      · refine ⟨0, Nat.zero_le _, [], rfl, Or.inr ⟨?_, by simp, arts, ?_⟩⟩
        · simp [runnerLoop, hsub, hexec]
        · have hev : (runnerLoop w (step :: rest) i p).1 =
              RunEvent.statusWrite RunStatus.running i ::
                (artShots arts ++
                  [RunEvent.shot "error.png",
                   RunEvent.statusWrite RunStatus.failed i]) := by
            simp [runnerLoop, hsub, hexec]
          rw [hev]
          simp [interleaveShots]
      · have hev : runnerLoop w (step :: rest) i p =
            (RunEvent.statusWrite RunStatus.running i ::
              (artShots arts ++
                RunEvent.shot (stepShotName i) ::
                RunEvent.statusWrite RunStatus.running (i + 1) ::
                (runnerLoop w rest (i + 1) p1).1),
             (runnerLoop w rest (i + 1) p1).2) := by
          simp [runnerLoop, hsub, hexec, hAuth i]
        obtain ⟨k, hk, pre, hpre, hcase⟩ := ih (i + 1) p1
        refine ⟨k + 1, by simpa using hk, arts :: pre, by simp [hpre], ?_⟩
        rcases hcase with ⟨hres, hlen, hsh⟩ | ⟨hres, hlen, afail, hsh⟩
        · refine Or.inl ⟨?_, by simp [hlen], ?_⟩
          · rw [hev]
            exact hres
          · rw [hev]
            simp only [shots_write, shots_artShots, shots_shot]
            rw [hsh, List.range'_succ]
            simp [interleaveShots]
        · refine Or.inr ⟨?_, by simpa using hlen, afail, ?_⟩
          · rw [hev]
            exact hres
          · rw [hev]
            simp only [shots_write, shots_artShots, shots_shot]
            rw [hsh, List.range'_succ]
            simp [interleaveShots]

theorem runnerLoop_shots_quiet (w : RunnerWorld) (steps : List PyVal)
    (hAuth : ∀ j, w.authAfter j = false)
    (hquiet : ∀ j v, (w.execStep j v).1 = []) :
    ∀ (i : Nat) (p : Params),
      ∃ k, k ≤ steps.length ∧
        (((runnerLoop w steps i p).2 = Option.none ∧ k = steps.length
            ∧ shots (runnerLoop w steps i p).1 = (List.range' i k).map stepShotName)
         ∨ ((runnerLoop w steps i p).2.isSome = true ∧ k < steps.length
            ∧ shots (runnerLoop w steps i p).1 =
                (List.range' i k).map stepShotName ++ ["error.png"])) := by
  induction steps with
  | nil =>
    intro i p
    refine ⟨0, le_refl 0, Or.inl ⟨rfl, rfl, ?_⟩⟩
    simp [runnerLoop]
  | cons step rest ih =>
    intro i p
    rcases hsub : substitute_step_placeholders w.discover step p with ⟨res, p1⟩
    rcases res with e | resolved
    · refine ⟨0, Nat.zero_le _, Or.inr ⟨?_, by simp, ?_⟩⟩
      · simp [runnerLoop, hsub]
      · have hev : (runnerLoop w (step :: rest) i p).1 =
            [RunEvent.statusWrite RunStatus.running i, RunEvent.shot "error.png",
             RunEvent.statusWrite RunStatus.failed i] := by
          simp [runnerLoop, hsub]
        rw [hev]
        simp
    · rcases hexec : w.execStep i resolved with ⟨arts, res2⟩
      have harts : arts = [] := by
        have hq := hquiet i resolved
        rw [hexec] at hq
        exact hq
      subst harts
      rcases res2 with e | msg
      · refine ⟨0, Nat.zero_le _, Or.inr ⟨?_, by simp, ?_⟩⟩
        · simp [runnerLoop, hsub, hexec]
        · have hev : (runnerLoop w (step :: rest) i p).1 =
              RunEvent.statusWrite RunStatus.running i ::
                (artShots [] ++
                  [RunEvent.shot "error.png",
                   RunEvent.statusWrite RunStatus.failed i]) := by
            simp [runnerLoop, hsub, hexec]
          rw [hev]
          simp [artShots]
      · have hev : runnerLoop w (step :: rest) i p =
            (RunEvent.statusWrite RunStatus.running i ::
              (artShots [] ++
                RunEvent.shot (stepShotName i) ::
                RunEvent.statusWrite RunStatus.running (i + 1) ::
                (runnerLoop w rest (i + 1) p1).1),
             (runnerLoop w rest (i + 1) p1).2) := by
          simp [runnerLoop, hsub, hexec, hAuth i]
        obtain ⟨k, hk, hcase⟩ := ih (i + 1) p1
        refine ⟨k + 1, by simpa using hk, ?_⟩
        rcases hcase with ⟨hres, hlen, hsh⟩ | ⟨hres, hlen, hsh⟩
        · refine Or.inl ⟨?_, by simp [hlen], ?_⟩
          · rw [hev]
            exact hres
          · rw [hev]
            simp only [artShots, List.map_nil, List.nil_append, shots_write, shots_shot]
            rw [hsh, List.range'_succ]
            simp
        · refine Or.inr ⟨?_, by simpa using hlen, ?_⟩
          · rw [hev]
            exact hres
          · rw [hev]
            simp only [artShots, List.map_nil, List.nil_append, shots_write, shots_shot]
            rw [hsh, List.range'_succ]
            simp

/-- C8 amended: along any execution of the step loop that never hits the UCI
auth page, the loop saves a screenshot named `step_<index>.png` (plain,
unpadded decimal index) after every SUCCESSFUL step, and a step that raises
gets no per-step loop screenshot -- the handler saves the single artifact
`error.png`.  Step executions may additionally save artifacts of their own
(the SCREENSHOT action saves its `step.filename` into the same per-run
directory), which precede the step's `step_<index>.png` shot (or precede
`error.png` for the raising step): the artifact stream decomposes as
per-step blocks of step-own saves each followed by `step_<index>.png` over
the successfully completed prefix, plus, on failure, the failing step's own
saves and `error.png`.  In particular, when no step saves artifacts of its
own, the stream is exactly the `step_<index>.png` shots of the successful
prefix, followed by `error.png` exactly when the run failed. -/
theorem screenshots_amended (w : RunnerWorld) (steps : List PyVal) (i : Nat) (p : Params)
    (hAuth : ∀ j, w.authAfter j = false) :
    (∃ k, k ≤ steps.length ∧
      ∃ pre : List (List String), pre.length = k ∧
        (((runnerLoop w steps i p).2 = Option.none ∧ k = steps.length
            ∧ shots (runnerLoop w steps i p).1 = interleaveShots pre (List.range' i k))
         ∨ ((runnerLoop w steps i p).2.isSome = true ∧ k < steps.length
            ∧ ∃ afail, shots (runnerLoop w steps i p).1 =
                interleaveShots pre (List.range' i k) ++ afail ++ ["error.png"])))
    ∧ ((∀ j v, (w.execStep j v).1 = []) →
        ∃ k, k ≤ steps.length ∧
          (((runnerLoop w steps i p).2 = Option.none ∧ k = steps.length
              ∧ shots (runnerLoop w steps i p).1 = (List.range' i k).map stepShotName)
           ∨ ((runnerLoop w steps i p).2.isSome = true ∧ k < steps.length
              ∧ shots (runnerLoop w steps i p).1 =
                  (List.range' i k).map stepShotName ++ ["error.png"]))) :=
  ⟨runnerLoop_shots_decomp w steps hAuth i p,
   fun hquiet => runnerLoop_shots_quiet w steps hAuth hquiet i p⟩

theorem screenshots_amended_witness :
    (∀ j, c5World.authAfter j = false)
    ∧ ((∃ k, k ≤ ([PyVal.none] : List PyVal).length ∧
        ∃ pre : List (List String), pre.length = k ∧
          (((runnerLoop c5World [PyVal.none] 0 []).2 = Option.none
              ∧ k = ([PyVal.none] : List PyVal).length
              ∧ shots (runnerLoop c5World [PyVal.none] 0 []).1 =
                  interleaveShots pre (List.range' 0 k))
           ∨ ((runnerLoop c5World [PyVal.none] 0 []).2.isSome = true
              ∧ k < ([PyVal.none] : List PyVal).length
              ∧ ∃ afail, shots (runnerLoop c5World [PyVal.none] 0 []).1 =
                  interleaveShots pre (List.range' 0 k) ++ afail ++ ["error.png"])))
       ∧ ((∀ j v, (c5World.execStep j v).1 = []) →
           ∃ k, k ≤ ([PyVal.none] : List PyVal).length ∧
             (((runnerLoop c5World [PyVal.none] 0 []).2 = Option.none
                 ∧ k = ([PyVal.none] : List PyVal).length
                 ∧ shots (runnerLoop c5World [PyVal.none] 0 []).1 =
                     (List.range' 0 k).map stepShotName)
              ∨ ((runnerLoop c5World [PyVal.none] 0 []).2.isSome = true
                 ∧ k < ([PyVal.none] : List PyVal).length
                 ∧ shots (runnerLoop c5World [PyVal.none] 0 []).1 =
                     (List.range' 0 k).map stepShotName ++ ["error.png"])))) :=
  ⟨fun _ => rfl, screenshots_amended c5World [PyVal.none] 0 [] (fun _ => rfl)⟩

/-- `value.split(c)` for a one-character separator, on the character list. -/
def splitCh (sep : Char) : List Char → List (List Char)
  | [] => [[]]
  | c :: cs =>
    match splitCh sep cs with
    | [] => [[]]
    | h :: t => if c = sep then [] :: h :: t else (c :: h) :: t

/-- The join of the concat branch of `_xpath_literal`:
`", CHR(34) CHR(39) CHR(34), ".join(...)` over the apostrophe-wrapped
parts (the separator places each inner apostrophe as its own double-quoted
XPath literal). -/
def joinedParts : List (List Char) → List Char
  | [] => []
  | [part] => squoteChar :: part ++ [squoteChar]
  | part :: q :: rest =>
    (squoteChar :: part ++ [squoteChar]) ++
      ([',', ' ', dquoteChar, squoteChar, dquoteChar, ',', ' '] ++ joinedParts (q :: rest))

/-- Embeds `WorkflowRunner._xpath_literal` (selenium_runner.py): wrap in
apostrophes when the value holds none, else in double quotes when it holds
none of those, else split on apostrophes and emit a `concat(...)` of
apostrophe-wrapped parts joined by double-quoted apostrophe literals. -/
def xpath_literal (value : String) : String :=
  if value.data.contains squoteChar = false then
    String.mk (squoteChar :: value.data ++ [squoteChar])
  else if value.data.contains dquoteChar = false then
    String.mk (dquoteChar :: value.data ++ [dquoteChar])
  else
    String.mk ("concat(".data ++ joinedParts (splitCh squoteChar value.data) ++ ")".data)

/-- An XPath string literal: a body wrapped in apostrophes or in double
quotes. -/
inductive XPathLit where
  | lsq (l : List Char)
  | ldq (l : List Char)

/-- An XPath expression of string type as `_xpath_literal` produces them: a
single quoted literal, or `concat(...)` over quoted literals. -/
inductive XPathStrExpr where
  | lit (a : XPathLit)
  | concatE (args : List XPathLit)

/-- Source text of a quoted literal. -/
def renderLit : XPathLit → List Char
  | XPathLit.lsq l => squoteChar :: l ++ [squoteChar]
  | XPathLit.ldq l => dquoteChar :: l ++ [dquoteChar]

/-- The string value a quoted literal denotes in XPath. -/
def evalLit : XPathLit → List Char
  | XPathLit.lsq l => l
  | XPathLit.ldq l => l

/-- A quoted literal is well-formed XPath when its body never holds its own
delimiter (XPath 1.0 has no escape mechanism inside string literals). -/
def wfLit : XPathLit → Bool
  | XPathLit.lsq l => !(l.contains squoteChar)
  | XPathLit.ldq l => !(l.contains dquoteChar)

/-- Source text of a comma-separated argument list. -/
def renderArgs : List XPathLit → List Char
  | [] => []
  | [a] => renderLit a
  | a :: b :: rest => renderLit a ++ ([',', ' '] ++ renderArgs (b :: rest))

/-- The concatenation of the argument values. -/
def evalArgs : List XPathLit → List Char
  | [] => []
  | a :: rest => evalLit a ++ evalArgs rest

/-- Source text of an expression. -/
def renderX : XPathStrExpr → String
  | XPathStrExpr.lit a => String.mk (renderLit a)
  | XPathStrExpr.concatE args => String.mk ("concat(".data ++ renderArgs args ++ ")".data)

/-- The string value an expression evaluates to. -/
def evalX : XPathStrExpr → String
  | XPathStrExpr.lit a => String.mk (evalLit a)
  | XPathStrExpr.concatE args => String.mk (evalArgs args)

/-- Well-formedness: every literal is well-formed, and `concat` has the at
least two arguments the XPath function requires. -/
def wfX : XPathStrExpr → Bool
  | XPathStrExpr.lit a => wfLit a
  | XPathStrExpr.concatE args => decide (2 ≤ args.length) && args.all wfLit

/-- The argument list of the concat branch: apostrophe-wrapped parts joined by
double-quoted apostrophe literals. -/
def concatArgs : List (List Char) → List XPathLit
  | [] => []
  | [part] => [XPathLit.lsq part]
  | part :: q :: rest =>
    XPathLit.lsq part :: XPathLit.ldq [squoteChar] :: concatArgs (q :: rest)

theorem splitCh_shape (sep : Char) : ∀ l : List Char, ∃ h t, splitCh sep l = h :: t
  | [] => ⟨[], [], rfl⟩
  | c :: cs => by
    obtain ⟨h, t, hht⟩ := splitCh_shape sep cs
    by_cases hc : c = sep
    · exact ⟨[], h :: t, by simp [splitCh, hht, hc]⟩
    · exact ⟨c :: h, t, by simp [splitCh, hht, hc]⟩

/-- One-character join is the left inverse of `splitCh`. -/
def joinCh (sep : Char) : List (List Char) → List Char
  | [] => []
  | [part] => part
  | part :: q :: rest => part ++ sep :: joinCh sep (q :: rest)

theorem joinCh_splitCh (sep : Char) : ∀ l : List Char, joinCh sep (splitCh sep l) = l
  | [] => rfl
  | c :: cs => by
    have ih := joinCh_splitCh sep cs
    obtain ⟨h, t, hht⟩ := splitCh_shape sep cs
    rw [hht] at ih
    by_cases hc : c = sep
    · have hsp : splitCh sep (c :: cs) = [] :: h :: t := by simp [splitCh, hht, hc]
      rw [hsp]
      subst hc
      simp [joinCh, ih]
    · have hsp : splitCh sep (c :: cs) = (c :: h) :: t := by simp [splitCh, hht, hc]
      rw [hsp]
      cases t with
      | nil =>
        simp only [joinCh] at ih ⊢
        rw [ih]
      | cons t0 t1 =>
        simp only [joinCh] at ih ⊢
        simp [ih]

theorem splitCh_contains (sep : Char) : ∀ l : List Char, ∀ part ∈ splitCh sep l,
    sep ∉ part
  | [], part, hp => by
    simp only [splitCh, List.mem_singleton] at hp
    subst hp
    exact List.not_mem_nil sep
  | c :: cs, part, hp => by
    obtain ⟨h, t, hht⟩ := splitCh_shape sep cs
    by_cases hc : c = sep
    · have hsp : splitCh sep (c :: cs) = [] :: h :: t := by simp [splitCh, hht, hc]
      rw [hsp] at hp
      rcases List.mem_cons.mp hp with hp | hp
      · subst hp
        exact List.not_mem_nil sep
      · exact splitCh_contains sep cs part (hht ▸ hp)
    · have hsp : splitCh sep (c :: cs) = (c :: h) :: t := by simp [splitCh, hht, hc]
      rw [hsp] at hp
      rcases List.mem_cons.mp hp with hp | hp
      · subst hp
        have hh : sep ∉ h :=
          splitCh_contains sep cs h (hht ▸ List.mem_cons_self _ _)
        intro hmem
        rcases List.mem_cons.mp hmem with hmem | hmem
        · exact hc hmem.symm
        · exact hh hmem
      · exact splitCh_contains sep cs part (hht ▸ List.mem_cons_of_mem _ hp)

theorem splitCh_length_two (sep : Char) : ∀ l : List Char, sep ∈ l →
    2 ≤ (splitCh sep l).length
  | [], h => absurd h (List.not_mem_nil sep)
  | c :: cs, h => by
    obtain ⟨h0, t, hht⟩ := splitCh_shape sep cs
    by_cases hc : c = sep
    · have hsp : splitCh sep (c :: cs) = [] :: h0 :: t := by simp [splitCh, hht, hc]
      rw [hsp]
      simp
    · have hcs : sep ∈ cs := by
        rcases List.mem_cons.mp h with h | h
        · exact absurd h.symm hc
        · exact h
      have h2 := splitCh_length_two sep cs hcs
      rw [hht] at h2
      have hsp : splitCh sep (c :: cs) = (c :: h0) :: t := by simp [splitCh, hht, hc]
      rw [hsp]
      simpa using h2

theorem concatArgs_shape (q : List Char) (rest : List (List Char)) :
    ∃ a l, concatArgs (q :: rest) = a :: l := by
  cases rest with
  | nil => exact ⟨_, _, rfl⟩
  | cons r rs => exact ⟨_, _, rfl⟩

theorem renderArgs_concatArgs : ∀ parts : List (List Char),
    renderArgs (concatArgs parts) = joinedParts parts
  | [] => rfl
  | [part] => rfl
  | part :: q :: rest => by
    have ih := renderArgs_concatArgs (q :: rest)
    obtain ⟨a, l, hshape⟩ := concatArgs_shape q rest
    rw [hshape] at ih
    show renderArgs (XPathLit.lsq part :: XPathLit.ldq [squoteChar] :: concatArgs (q :: rest)) =
      joinedParts (part :: q :: rest)
    rw [hshape]
    simp only [renderArgs, renderLit, joinedParts, ih]
    simp [List.append_assoc]

theorem evalArgs_concatArgs : ∀ parts : List (List Char),
    evalArgs (concatArgs parts) = joinCh squoteChar parts
  | [] => rfl
  | [part] => by simp [concatArgs, evalArgs, evalLit, joinCh]
  | part :: q :: rest => by
    have ih := evalArgs_concatArgs (q :: rest)
    show evalArgs (XPathLit.lsq part :: XPathLit.ldq [squoteChar] :: concatArgs (q :: rest)) =
      joinCh squoteChar (part :: q :: rest)
    simp only [evalArgs, evalLit, joinCh, ih]
    simp

theorem concatArgs_all_wf : ∀ parts : List (List Char),
    (∀ part ∈ parts, squoteChar ∉ part) →
    (concatArgs parts).all wfLit = true
  | [], _ => rfl
  | [part], h => by
    simp only [concatArgs, List.all_cons, List.all_nil, Bool.and_true]
    simp [wfLit, h part (List.mem_singleton.mpr rfl)]
  | part :: q :: rest, h => by
    have ih := concatArgs_all_wf (q :: rest)
      (fun x hx => h x (List.mem_cons_of_mem _ hx))
    simp only [concatArgs, List.all_cons]
    refine Bool.and_eq_true_iff.mpr ⟨?_, Bool.and_eq_true_iff.mpr ⟨?_, ih⟩⟩
    · simp [wfLit, h part (List.mem_cons_self _ _)]
    · decide

theorem concatArgs_length : ∀ parts : List (List Char), 2 ≤ parts.length →
    2 ≤ (concatArgs parts).length
  | [], h => by simp at h
  | [part], h => by simp at h
  | part :: q :: rest, _ => by
    obtain ⟨a, l, hshape⟩ := concatArgs_shape q rest
    show 2 ≤ (XPathLit.lsq part :: XPathLit.ldq [squoteChar] :: concatArgs (q :: rest)).length
    simp

/-- C10: for every input string -- with apostrophes, double quotes, both or
neither -- `_xpath_literal` returns the source text of a well-formed XPath
string expression (a quoted literal whose body never holds its delimiter, or
a `concat(...)` of at least two such literals when both quote kinds occur)
whose XPath value is exactly the input string. -/
theorem xpath_literal_correct (value : String) :
    ∃ e : XPathStrExpr, wfX e = true ∧ renderX e = xpath_literal value
      ∧ evalX e = value := by
  by_cases h1 : squoteChar ∈ value.data
  · by_cases h2 : dquoteChar ∈ value.data
    · refine ⟨XPathStrExpr.concatE (concatArgs (splitCh squoteChar value.data)), ?_, ?_, ?_⟩
      · have hw := concatArgs_all_wf (splitCh squoteChar value.data)
          (splitCh_contains squoteChar value.data)
        have hl := concatArgs_length (splitCh squoteChar value.data)
          (splitCh_length_two squoteChar value.data h1)
        simp [wfX, hw, hl]
      · simp [renderX, xpath_literal, h1, h2, renderArgs_concatArgs]
      · show String.mk (evalArgs (concatArgs (splitCh squoteChar value.data))) = value
        rw [evalArgs_concatArgs, joinCh_splitCh]
    · refine ⟨XPathStrExpr.lit (XPathLit.ldq value.data), ?_, ?_, rfl⟩
      · simp [wfX, wfLit, h2]
      · simp [renderX, renderLit, xpath_literal, h1, h2]
  · refine ⟨XPathStrExpr.lit (XPathLit.lsq value.data), ?_, ?_, rfl⟩
    · simp [wfX, wfLit, h1]
    · simp [renderX, renderLit, xpath_literal, h1]

end TeachAI
